import Mathlib

/-
Verification of the discrete-event simulation engine in FactorySimulation.ts
(factory-simulator-ai). The engine is shallowly embedded: each TypeScript
class becomes a Lean structure, each method a pure function on that
structure. Virtual time is modelled by the rationals. The seeded linear
congruential generator is modelled exactly over the naturals (mod 2^32);
its derived real-valued distributions (expovariate, triangular) are
modelled over the reals. Event-queue actions and all suspended
continuations (Resource wait queues, Store producer/consumer queues) are
defunctionalized: every closure that the TypeScript code can ever enqueue
is one constructor of an inductive type, and a family of interpreter
functions mirrors the synchronous callback cascades of the source.
-/

namespace FactorySim

/-! RNG: the seeded linear congruential generator of class RNG.
state is a 32-bit unsigned integer; next() advances
state = (1103515245 * state + 12345) >>> 0 and returns
(state & 0x7fffffff) / 0x80000000. -/

def rngStep (s : ℕ) : ℕ := (1103515245 * s + 12345) % 4294967296

def rngOut (s : ℕ) : ℚ := ((s &&& 0x7fffffff : ℕ) : ℚ) / 2147483648

/-- State of the generator after n calls to next(), starting from a seed. -/
def rngState (seed : ℕ) : ℕ → ℕ
  | 0 => seed % 4294967296
  | n + 1 => rngStep (rngState seed n)

/-- Value returned by the n-th call to next() (0-indexed). -/
def rngVal (seed : ℕ) (n : ℕ) : ℚ := rngOut (rngState seed (n + 1))

/-- RNG.expovariate: u = max(1e-12, next()); -ln(u) * mean. The uniform
deviate is an argument; the log is the real logarithm. -/
noncomputable def expovariate (u mean : ℝ) : ℝ :=
  -Real.log (max (1e-12) u) * mean

/-- RNG.triangular(low, mode, high) via the inverse-CDF split at
c = (mode - low)/(high - low); the uniform deviate is an argument. -/
noncomputable def triangular (u low mode high : ℝ) : ℝ :=
  if u < (mode - low) / (high - low) then
    low + Real.sqrt (u * (high - low) * (mode - low))
  else
    high - Real.sqrt ((1 - u) * (high - low) * (high - mode))

/-! Resource: exclusive-capacity server with FIFO wait queue (class
Resource). inUse and capacity are integers, as in the source, where
release() clamps with Math.max(0, inUse - 1). The queued continuations
are an arbitrary type kappa. -/

structure Resource (κ : Type) where
  capacity : ℤ
  inUse : ℤ
  queue : List κ
deriving DecidableEq

def mkResource (κ : Type) (c : ℤ) : Resource κ := ⟨c, 0, []⟩

/-- Resource.acquire(callback): grant immediately when inUse < capacity
(returning the continuation to invoke), else enqueue it FIFO. -/
def Resource.acquire (r : Resource κ) (k : κ) : Resource κ × Option κ :=
  if r.inUse < r.capacity then
    ({ r with inUse := r.inUse + 1 }, some k)
  else
    ({ r with queue := r.queue ++ [k] }, none)

/-- Resource.release(): inUse = max(0, inUse - 1); when the wait queue is
non-empty, dequeue the next continuation, re-increment inUse, and return
it for immediate invocation. -/
def Resource.release (r : Resource κ) : Resource κ × Option κ :=
  match r.queue with
  | [] => ({ r with inUse := max 0 (r.inUse - 1) }, none)
  | k :: rest =>
    ({ r with inUse := max 0 (r.inUse - 1) + 1, queue := rest }, some k)

/-- An interleaving step on a standalone Resource: an acquire call with
some continuation, or a release call. -/
inductive ResOp (κ : Type) where
  | acq (k : κ)
  | rel
deriving DecidableEq

def resApply (r : Resource κ) : ResOp κ → Resource κ
  | .acq k => (r.acquire k).1
  | .rel => r.release.1

/-- Resource state after an arbitrary interleaving of acquire/release
calls starting from a fresh Resource with the given capacity. -/
def resRun (κ : Type) (c : ℤ) (ops : List (ResOp κ)) : Resource κ :=
  ops.foldl resApply (mkResource κ c)

def ResInv (r : Resource κ) : Prop :=
  0 ≤ r.inUse ∧ r.inUse ≤ r.capacity ∧ (r.queue ≠ [] → r.inUse = r.capacity)

theorem resApply_capacity (r : Resource κ) (op : ResOp κ) :
    (resApply r op).capacity = r.capacity := by
  cases op with
  | acq k =>
    dsimp only [resApply, Resource.acquire]
    by_cases hlt : r.inUse < r.capacity
    · rw [if_pos hlt]
    · rw [if_neg hlt]
  | rel =>
    dsimp only [resApply, Resource.release]
    cases hq : r.queue <;> rfl

theorem ResInv_apply (r : Resource κ) (op : ResOp κ)
    (hc : 0 < r.capacity) (h : ResInv r) : ResInv (resApply r op) := by
  obtain ⟨h0, h1, h2⟩ := h
  cases op with
  | acq k =>
    dsimp only [resApply, Resource.acquire]
    by_cases hlt : r.inUse < r.capacity
    · rw [if_pos hlt]
      refine ⟨by show (0:ℤ) ≤ r.inUse + 1; omega,
        by show r.inUse + 1 ≤ r.capacity; omega, fun hq => ?_⟩
      have := h2 hq
      show r.inUse + 1 = r.capacity
      omega
    · rw [if_neg hlt]
      exact ⟨h0, h1, fun _ => by show r.inUse = r.capacity; omega⟩
  | rel =>
    dsimp only [resApply, Resource.release]
    cases hq : r.queue with
    | nil =>
      exact ⟨by show (0:ℤ) ≤ max 0 (r.inUse - 1); omega,
        by show max 0 (r.inUse - 1) ≤ r.capacity; omega,
        fun hh => absurd rfl hh⟩
    | cons k rest =>
      have hcap := h2 (by rw [hq]; exact List.cons_ne_nil k rest)
      exact ⟨by show (0:ℤ) ≤ max 0 (r.inUse - 1) + 1; omega,
        by show max 0 (r.inUse - 1) + 1 ≤ r.capacity; omega,
        fun _ => by show max 0 (r.inUse - 1) + 1 = r.capacity; omega⟩

theorem ResInv_run (κ : Type) (c : ℤ) (hc : 0 < c) (ops : List (ResOp κ)) :
    ResInv (resRun κ c ops) ∧ (resRun κ c ops).capacity = c := by
  induction ops using List.reverseRecOn with
  | nil => exact ⟨⟨le_refl 0, le_of_lt hc, fun hh => absurd rfl hh⟩, rfl⟩
  | append_singleton ops op ih =>
    simp only [resRun, List.foldl_append, List.foldl_cons, List.foldl_nil] at ih ⊢
    exact ⟨ResInv_apply _ _ (by rw [ih.2]; exact hc) ih.1,
      by rw [resApply_capacity]; exact ih.2⟩

/-- C2. Resource invariant: every state of a Resource reachable by any
interleaving of acquire and release calls, starting from a fresh Resource
with positive capacity, satisfies 0 ≤ inUse ≤ capacity, queueLength ≥ 0,
and whenever the wait queue is non-empty, inUse equals capacity. -/
theorem resource_invariant (κ : Type) (c : ℤ) (hc : 0 < c)
    (ops : List (ResOp κ)) :
    0 ≤ (resRun κ c ops).inUse ∧
    (resRun κ c ops).inUse ≤ (resRun κ c ops).capacity ∧
    (0 : ℤ) ≤ (resRun κ c ops).queue.length ∧
    ((resRun κ c ops).queue ≠ [] →
      (resRun κ c ops).inUse = (resRun κ c ops).capacity) := by
  obtain ⟨⟨h0, h1, h2⟩, _⟩ := ResInv_run κ c hc ops
  exact ⟨h0, h1, Int.ofNat_nonneg _, h2⟩

/-- Witness for resource_invariant at capacity 2 and a concrete
interleaving that exercises granting, queueing and handoff. -/
theorem resource_invariant_witness :
    (0 : ℤ) < 2 ∧
    (0 ≤ (resRun ℕ 2 [.acq 0, .acq 1, .acq 2, .rel, .rel]).inUse ∧
      (resRun ℕ 2 [.acq 0, .acq 1, .acq 2, .rel, .rel]).inUse ≤
        (resRun ℕ 2 [.acq 0, .acq 1, .acq 2, .rel, .rel]).capacity ∧
      (0 : ℤ) ≤ (resRun ℕ 2 [.acq 0, .acq 1, .acq 2, .rel, .rel]).queue.length ∧
      ((resRun ℕ 2 [.acq 0, .acq 1, .acq 2, .rel, .rel]).queue ≠ [] →
        (resRun ℕ 2 [.acq 0, .acq 1, .acq 2, .rel, .rel]).inUse =
          (resRun ℕ 2 [.acq 0, .acq 1, .acq 2, .rel, .rel]).capacity)) :=
  ⟨by norm_num, resource_invariant ℕ 2 (by norm_num) [.acq 0, .acq 1, .acq 2, .rel, .rel]⟩

/-! Store: capacity-limited FIFO buffer with separate producer/consumer
wait queues (class Store of T). The stored items have type T, the queued
consumer callbacks type gamma, and the queued producer callbacks type pi;
put/get return which suspended callbacks must be invoked, in source
order, so that the line machine below can interpret them. -/

structure Store (T γ π : Type) where
  capacity : ℕ
  items : List T
  getQ : List γ
  putQ : List (T × π)
deriving DecidableEq

def mkStore (T γ π : Type) (c : ℕ) : Store T γ π := ⟨c, [], [], []⟩

/-- Result of Store.put: hand the item directly to a waiting consumer
(invoking it, then the producer callback), store it in the buffer
(invoking the producer callback), or block the producer. -/
inductive StorePutRes (T γ π : Type) where
  | handed (g : γ) (item : T) (cb : π)
  | stored (cb : π)
  | queued
deriving DecidableEq

/-- Store.put(item, callback). -/
def Store.put (s : Store T γ π) (item : T) (cb : π) :
    Store T γ π × StorePutRes T γ π :=
  match s.getQ with
  | g :: gs => ({ s with getQ := gs }, .handed g item cb)
  | [] =>
    if s.items.length < s.capacity then
      ({ s with items := s.items ++ [item] }, .stored cb)
    else
      ({ s with putQ := s.putQ ++ [(item, cb)] }, .queued)

/-- Result of Store.get: either an item is delivered to the consumer
callback (with an optional unblocked producer: its callback, and, when a
consumer was also waiting, the direct handoff of the producer's item to
that consumer), or the consumer blocks. -/
inductive StoreGetRes (T γ π : Type) where
  | got (it : T) (unblocked : Option (π × Option (γ × T)))
  | waiting
deriving DecidableEq

/-- Store.get(callback): remove the oldest item; when a blocked producer
exists, admit its item into the freed slot (or hand it directly to a
waiting consumer) and release that producer. -/
def Store.get (s : Store T γ π) (cb : γ) :
    Store T γ π × StoreGetRes T γ π :=
  match s.items with
  | it :: its =>
    match s.putQ with
    | [] => ({ s with items := its }, .got it none)
    | (item2, pcb) :: ps =>
      match s.getQ with
      | g :: gs =>
        ({ s with items := its, putQ := ps, getQ := gs },
          .got it (some (pcb, some (g, item2))))
      | [] =>
        ({ s with items := its ++ [item2], putQ := ps },
          .got it (some (pcb, none)))
  | [] => ({ s with getQ := s.getQ ++ [cb] }, .waiting)

/-- An interleaving step on a standalone Store: a put call or a get
call. -/
inductive StoreOp (T γ π : Type) where
  | put (item : T) (cb : π)
  | get (cb : γ)
deriving DecidableEq

def storeApply (s : Store T γ π) : StoreOp T γ π → Store T γ π
  | .put item cb => (s.put item cb).1
  | .get cb => (s.get cb).1

/-- Store state after an arbitrary interleaving of put/get calls starting
from a fresh Store with the given capacity. -/
def storeRun (T γ π : Type) (c : ℕ) (ops : List (StoreOp T γ π)) :
    Store T γ π :=
  ops.foldl storeApply (mkStore T γ π c)

def StoreInv (s : Store T γ π) : Prop :=
  s.items.length ≤ s.capacity ∧
  (s.putQ ≠ [] → s.items.length = s.capacity ∧ s.getQ = []) ∧
  (s.getQ ≠ [] → s.items = [])

theorem storeApply_capacity (s : Store T γ π) (op : StoreOp T γ π) :
    (storeApply s op).capacity = s.capacity := by
  cases op with
  | put item cb =>
    dsimp only [storeApply, Store.put]
    cases s.getQ with
    | cons g gs => rfl
    | nil =>
      by_cases hlt : s.items.length < s.capacity
      · rw [if_pos hlt]
      · rw [if_neg hlt]
  | get cb =>
    dsimp only [storeApply, Store.get]
    cases s.items with
    | nil => rfl
    | cons it its =>
      cases s.putQ with
      | nil => rfl
      | cons p ps =>
        cases p with
        | mk item2 pcb => cases s.getQ <;> rfl

theorem StoreInv_apply (s : Store T γ π) (op : StoreOp T γ π)
    (hc : 0 < s.capacity) (h : StoreInv s) : StoreInv (storeApply s op) := by
  obtain ⟨h1, h2, h3⟩ := h
  cases op with
  | put item cb =>
    dsimp only [storeApply, Store.put]
    cases hg : s.getQ with
    | cons g gs =>
      dsimp only
      have hitems := h3 (by rw [hg]; exact List.cons_ne_nil g gs)
      refine ⟨h1, fun hp => ?_, fun hgs => ?_⟩
      · obtain ⟨hlen, hget⟩ := h2 hp
        rw [hg] at hget
        exact absurd hget (List.cons_ne_nil g gs)
      · exact hitems
    | nil =>
      dsimp only
      by_cases hlt : s.items.length < s.capacity
      · rw [if_pos hlt]
        refine ⟨?_, fun hp => ?_, fun hgs => absurd rfl hgs⟩
        · show (s.items ++ [item]).length ≤ s.capacity
          rw [List.length_append, List.length_singleton]
          omega
        · obtain ⟨hlen, _⟩ := h2 hp
          omega
      · rw [if_neg hlt]
        refine ⟨h1, fun _ => ⟨by show s.items.length = s.capacity; omega, rfl⟩, fun hgs => ?_⟩
        exact absurd rfl hgs
  | get cb =>
    dsimp only [storeApply, Store.get]
    cases hi : s.items with
    | nil =>
      dsimp only
      refine ⟨by rw [hi] at h1; exact h1, fun hp => ?_, fun _ => rfl⟩
      obtain ⟨hlen, _⟩ := h2 hp
      rw [hi] at hlen
      simp only [List.length_nil] at hlen
      omega
    | cons it its =>
      cases hp : s.putQ with
      | nil =>
        dsimp only
        refine ⟨?_, fun hps => absurd rfl hps, fun hgs => ?_⟩
        · show its.length ≤ s.capacity
          rw [hi] at h1
          simp only [List.length_cons] at h1
          omega
        · have := h3 hgs
          rw [hi] at this
          exact absurd this (List.cons_ne_nil it its)
      | cons p ps =>
        obtain ⟨hlen, hget⟩ := h2 (by rw [hp]; exact List.cons_ne_nil p ps)
        cases p with
        | mk item2 pcb =>
          cases hg : s.getQ with
          | cons g gs => exact absurd hget (by rw [hg]; exact List.cons_ne_nil g gs)
          | nil =>
            dsimp only
            refine ⟨?_, fun hps => ⟨?_, rfl⟩, fun hgs => absurd rfl hgs⟩
            · show (its ++ [item2]).length ≤ s.capacity
              rw [hi] at h1
              simp only [List.length_cons] at h1
              rw [List.length_append, List.length_singleton]
              omega
            · show (its ++ [item2]).length = s.capacity
              rw [hi] at hlen
              simp only [List.length_cons] at hlen
              rw [List.length_append, List.length_singleton]
              omega

theorem StoreInv_run (T γ π : Type) (c : ℕ) (hc : 0 < c)
    (ops : List (StoreOp T γ π)) :
    StoreInv (storeRun T γ π c ops) ∧ (storeRun T γ π c ops).capacity = c := by
  induction ops using List.reverseRecOn with
  | nil =>
    exact ⟨⟨Nat.zero_le c, fun hh => absurd rfl hh, fun hh => absurd rfl hh⟩, rfl⟩
  | append_singleton ops op ih =>
    simp only [storeRun, List.foldl_append, List.foldl_cons, List.foldl_nil] at ih ⊢
    exact ⟨StoreInv_apply _ _ (by rw [ih.2]; exact hc) ih.1,
      by rw [storeApply_capacity]; exact ih.2⟩

/-- C3. BoundedBuffer invariant: every state of a Store reachable by any
interleaving of put and get calls, starting from a fresh Store with
positive capacity, satisfies 0 ≤ items ≤ capacity; the blocked-producer
queue is non-empty only if the buffer is full and no consumer is blocked;
and the blocked-consumer queue is non-empty only if the buffer is
empty. -/
theorem store_invariant (T γ π : Type) (c : ℕ) (hc : 0 < c)
    (ops : List (StoreOp T γ π)) :
    0 ≤ (storeRun T γ π c ops).items.length ∧
    (storeRun T γ π c ops).items.length ≤ (storeRun T γ π c ops).capacity ∧
    ((storeRun T γ π c ops).putQ ≠ [] →
      (storeRun T γ π c ops).items.length = (storeRun T γ π c ops).capacity ∧
      (storeRun T γ π c ops).getQ = []) ∧
    ((storeRun T γ π c ops).getQ ≠ [] → (storeRun T γ π c ops).items = []) := by
  obtain ⟨⟨h1, h2, h3⟩, _⟩ := StoreInv_run T γ π c hc ops
  exact ⟨Nat.zero_le _, h1, h2, h3⟩

/-- Witness for store_invariant at capacity 1 and a concrete interleaving
that fills the buffer, blocks a producer and unblocks it again. -/
theorem store_invariant_witness :
    0 < 1 ∧
    (0 ≤ (storeRun ℕ ℕ ℕ 1 [.put 10 0, .put 11 1, .get 0, .get 1, .get 2]).items.length ∧
      (storeRun ℕ ℕ ℕ 1 [.put 10 0, .put 11 1, .get 0, .get 1, .get 2]).items.length ≤
        (storeRun ℕ ℕ ℕ 1 [.put 10 0, .put 11 1, .get 0, .get 1, .get 2]).capacity ∧
      ((storeRun ℕ ℕ ℕ 1 [.put 10 0, .put 11 1, .get 0, .get 1, .get 2]).putQ ≠ [] →
        (storeRun ℕ ℕ ℕ 1 [.put 10 0, .put 11 1, .get 0, .get 1, .get 2]).items.length =
          (storeRun ℕ ℕ ℕ 1 [.put 10 0, .put 11 1, .get 0, .get 1, .get 2]).capacity ∧
        (storeRun ℕ ℕ ℕ 1 [.put 10 0, .put 11 1, .get 0, .get 1, .get 2]).getQ = []) ∧
      ((storeRun ℕ ℕ ℕ 1 [.put 10 0, .put 11 1, .get 0, .get 1, .get 2]).getQ ≠ [] →
        (storeRun ℕ ℕ ℕ 1 [.put 10 0, .put 11 1, .get 0, .get 1, .get 2]).items = [])) :=
  ⟨Nat.one_pos, store_invariant ℕ ℕ ℕ 1 Nat.one_pos
    [.put 10 0, .put 11 1, .get 0, .get 1, .get 2]⟩

/-! Clock and event queue (classes PriorityQueue and Env). The source
pushes the new EngineEvent to the end of the array and re-sorts with the
stable comparator (x, y) => x.t - y.t; on an array that is already sorted
by t this is exactly a stable insertion: the new event goes after every
entry with t ≤ its own timestamp and before every entry with a strictly
later timestamp. -/

structure EngineEvent (A : Type) where
  t : ℚ
  action : A
deriving DecidableEq

def pqPush (a : List (EngineEvent A)) (e : EngineEvent A) :
    List (EngineEvent A) :=
  a.takeWhile (fun x => decide (x.t ≤ e.t)) ++
    e :: a.dropWhile (fun x => decide (x.t ≤ e.t))

structure Env (A : Type) where
  now : ℚ
  q : List (EngineEvent A)
deriving DecidableEq

def mkEnv (A : Type) : Env A := ⟨0, []⟩

/-- Env.schedule(dt, action): queue the action at time now + dt. -/
def Env.schedule (env : Env A) (dt : ℚ) (action : A) : Env A :=
  { env with q := pqPush env.q ⟨env.now + dt, action⟩ }

/-- Env.scheduleAt(time, action). -/
def Env.scheduleAt (env : Env A) (tm : ℚ) (action : A) : Env A :=
  { env with q := pqPush env.q ⟨tm, action⟩ }

/-- Env.step(): when the queue is empty return false (modelled as none)
and leave the state alone; otherwise shift the front event, advance the
clock to its timestamp, and return it for synchronous execution. -/
def Env.step (env : Env A) : Option (EngineEvent A) × Env A :=
  match env.q with
  | [] => (none, env)
  | e :: rest => (some e, ⟨e.t, rest⟩)

/-- Env.reset(): time zero and a fresh empty queue. -/
def Env.reset (_env : Env A) : Env A := ⟨0, []⟩

/-- The queue is sorted by timestamp (the PriorityQueue invariant that
push maintains). -/
def qSorted (l : List (EngineEvent A)) : Prop :=
  l.Pairwise (fun x y => x.t ≤ y.t)

theorem qSorted_cons {y : EngineEvent A} {ys : List (EngineEvent A)} :
    qSorted (y :: ys) ↔ (∀ z ∈ ys, y.t ≤ z.t) ∧ qSorted ys :=
  List.pairwise_cons

theorem pqPush_perm (a : List (EngineEvent A)) (e : EngineEvent A) :
    (pqPush a e).Perm (e :: a) := by
  have h1 : (pqPush a e).Perm
      (e :: (a.takeWhile (fun x => decide (x.t ≤ e.t)) ++
        a.dropWhile (fun x => decide (x.t ≤ e.t)))) := List.perm_middle
  rw [List.takeWhile_append_dropWhile] at h1
  exact h1

theorem mem_pqPush (a : List (EngineEvent A)) (e x : EngineEvent A) :
    x ∈ pqPush a e ↔ x = e ∨ x ∈ a := by
  rw [(pqPush_perm a e).mem_iff, List.mem_cons]

theorem countP_pqPush (a : List (EngineEvent A)) (e : EngineEvent A)
    (p : EngineEvent A → Bool) :
    (pqPush a e).countP p = a.countP p + (if p e then 1 else 0) := by
  rw [(pqPush_perm a e).countP_eq, List.countP_cons]

theorem qSorted_pqPush (a : List (EngineEvent A)) (e : EngineEvent A)
    (h : qSorted a) : qSorted (pqPush a e) := by
  induction a with
  | nil =>
    simp only [pqPush, List.takeWhile_nil, List.dropWhile_nil, List.nil_append]
    exact List.pairwise_singleton _ e
  | cons y ys ih =>
    rw [qSorted_cons] at h
    by_cases hy : y.t ≤ e.t
    · have hpush : pqPush (y :: ys) e = y :: pqPush ys e := by
        simp [pqPush, List.takeWhile_cons, List.dropWhile_cons, hy]
      rw [hpush, qSorted_cons]
      refine ⟨fun z hz => ?_, ih h.2⟩
      rcases (mem_pqPush ys e z).mp hz with hz | hz
      · rw [hz]; exact hy
      · exact h.1 z hz
    · have hpush : pqPush (y :: ys) e = e :: y :: ys := by
        simp [pqPush, List.takeWhile_cons, List.dropWhile_cons, hy]
      rw [hpush, qSorted_cons]
      refine ⟨fun z hz => ?_, qSorted_cons.mpr h⟩
      rcases List.mem_cons.mp hz with hz | hz
      · rw [hz]; exact le_of_not_le hy
      · exact le_trans (le_of_not_le hy) (h.1 z hz)

theorem filter_gt_of_sorted (a : List (EngineEvent A)) (e : EngineEvent A)
    (h : qSorted a) (hhead : ∀ x ∈ a.head?, e.t < x.t) :
    ∀ x ∈ a, e.t < x.t := by
  cases a with
  | nil => intro x hx; cases hx
  | cons y ys =>
    rw [qSorted_cons] at h
    intro x hx
    have hy : e.t < y.t := hhead y rfl
    rcases List.mem_cons.mp hx with hx | hx
    · rw [hx]; exact hy
    · exact lt_of_lt_of_le hy (h.1 x hx)

theorem filter_pqPush (a : List (EngineEvent A)) (e : EngineEvent A) (c : ℚ)
    (h : qSorted a) :
    (pqPush a e).filter (fun x => decide (x.t = c)) =
      a.filter (fun x => decide (x.t = c)) ++
        (if e.t = c then [e] else []) := by
  induction a with
  | nil => simp [pqPush, List.filter_cons]
  | cons y ys ih =>
    rw [qSorted_cons] at h
    by_cases hy : y.t ≤ e.t
    · have hpush : pqPush (y :: ys) e = y :: pqPush ys e := by
        simp [pqPush, List.takeWhile_cons, List.dropWhile_cons, hy]
      rw [hpush, List.filter_cons, List.filter_cons, ih h.2]
      by_cases hyc : y.t = c <;> simp [hyc]
    · have hpush : pqPush (y :: ys) e = e :: y :: ys := by
        simp [pqPush, List.takeWhile_cons, List.dropWhile_cons, hy]
      rw [hpush, List.filter_cons]
      by_cases hec : e.t = c
      · have hall : ∀ x ∈ y :: ys, ¬(x.t = c) := by
          intro x hx hxc
          have hlt : e.t < x.t := by
            refine filter_gt_of_sorted (y :: ys) e
              (qSorted_cons.mpr h) ?_ x hx
            intro z hz
            simp only [List.head?_cons, Option.mem_def, Option.some_inj] at hz
            rw [← hz]
            exact lt_of_not_le hy
          rw [hxc, hec] at hlt
          exact lt_irrefl c hlt
        have hnil : (y :: ys).filter (fun x => decide (x.t = c)) = [] := by
          rw [List.filter_eq_nil_iff]
          intro x hx
          simpa using hall x hx
        simp [hec, hnil]
      · simp [hec]

theorem foldl_pqPush_filter (es : List (EngineEvent A)) (c : ℚ) :
    ∀ a, qSorted a →
      (es.foldl pqPush a).filter (fun x => decide (x.t = c)) =
        a.filter (fun x => decide (x.t = c)) ++
          es.filter (fun x => decide (x.t = c)) := by
  induction es with
  | nil => intro a ha; simp
  | cons e es ih =>
    intro a ha
    rw [List.foldl_cons, ih (pqPush a e) (qSorted_pqPush a e ha),
      filter_pqPush a e c ha, List.filter_cons]
    by_cases hec : e.t = c <;> simp [hec]

theorem qSorted_foldl_pqPush (es : List (EngineEvent A)) :
    ∀ a, qSorted a → qSorted (es.foldl pqPush a) := by
  induction es with
  | nil => intro a ha; exact ha
  | cons e es ih => intro a ha; exact ih (pqPush a e) (qSorted_pqPush a e ha)

/-- C4. Event scheduler semantics: with at least one pending action in a
(sorted) queue, step() removes exactly the front action, which has the
earliest timestamp of all queued actions, sets the clock to that
timestamp and hands the action back (true); on an empty queue it returns
false and changes nothing. Among equal timestamps the queue built by
push preserves schedule order: restricting the queue to any fixed
timestamp c yields the scheduled events with that timestamp in schedule
order (FIFO tie-break). -/
theorem scheduler_earliest_first_fifo (A : Type) :
    (∀ env : Env A, env.q = [] → env.step = (none, env)) ∧
    (∀ (env : Env A) (e : EngineEvent A) (rest : List (EngineEvent A)),
      qSorted env.q → env.q = e :: rest →
      env.step = (some e, ⟨e.t, rest⟩) ∧ ∀ x ∈ env.q, e.t ≤ x.t) ∧
    (∀ (es : List (EngineEvent A)) (c : ℚ),
      (es.foldl pqPush []).filter (fun x => decide (x.t = c)) =
        es.filter (fun x => decide (x.t = c))) := by
  refine ⟨?_, ?_, ?_⟩
  · intro env h
    cases env with
    | mk n q =>
      dsimp only at h
      subst h
      rfl
  · intro env e rest hs hq
    cases env with
    | mk n q =>
      dsimp only at hq
      subst hq
      refine ⟨rfl, fun x hx => ?_⟩
      rw [qSorted_cons] at hs
      rcases List.mem_cons.mp hx with hx | hx
      · rw [hx]
      · exact hs.1 x hx
  · intro es c
    have := foldl_pqPush_filter es c [] (List.Pairwise.nil)
    simpa using this

/-- Witness for scheduler_earliest_first_fifo: instantiate every
hypothesis-bearing conjunct at a concrete queue. -/
theorem scheduler_earliest_first_fifo_witness :
    ((Env.mk (A := ℕ) 0 []).q = [] → (Env.mk (A := ℕ) 0 []).step =
      (none, Env.mk 0 [])) ∧
    ((Env.mk (A := ℕ) 3 [⟨5, 7⟩, ⟨6, 8⟩]).step =
      (some ⟨5, 7⟩, ⟨5, [⟨6, 8⟩]⟩) ∧
      ∀ x ∈ (Env.mk (A := ℕ) 3 [⟨5, 7⟩, ⟨6, 8⟩]).q, (5 : ℚ) ≤ x.t) := by
  refine ⟨fun h => (scheduler_earliest_first_fifo ℕ).1 _ h, ?_⟩
  exact (scheduler_earliest_first_fifo ℕ).2.1 (Env.mk 3 [⟨5, 7⟩, ⟨6, 8⟩])
    ⟨5, 7⟩ [⟨6, 8⟩]
    (by
      refine List.Pairwise.cons (fun x hx => ?_) (List.pairwise_singleton _ _)
      rw [List.mem_singleton] at hx
      subst hx
      show (5 : ℚ) ≤ 6
      norm_num)
    rfl

/-! Operations driven against an Env from outside, for the clock
monotonicity property: schedule with a delay, scheduleAt with an absolute
time, and step. -/

inductive EnvOp (A : Type) where
  | schedule (dt : ℚ) (action : A)
  | scheduleAt (tm : ℚ) (action : A)
  | step

def envApply (env : Env A) : EnvOp A → Env A
  | .schedule dt a => env.schedule dt a
  | .scheduleAt tm a => env.scheduleAt tm a
  | .step => env.step.2

/-- The proviso of the clock-monotonicity property: a schedule call uses
a non-negative delay, a scheduleAt call a time not before the current
clock, so every queued action has a timestamp at or after the clock value
at the moment it was scheduled. -/
def envValidOp (env : Env A) : EnvOp A → Prop
  | .schedule dt _ => 0 ≤ dt
  | .scheduleAt tm _ => env.now ≤ tm
  | .step => True

def envValid (env : Env A) : List (EnvOp A) → Prop
  | [] => True
  | op :: ops => envValidOp env op ∧ envValid (envApply env op) ops

def envInv (env : Env A) : Prop :=
  qSorted env.q ∧ ∀ e ∈ env.q, env.now ≤ e.t

theorem envInv_apply (env : Env A) (op : EnvOp A)
    (hv : envValidOp env op) (h : envInv env) :
    envInv (envApply env op) ∧ env.now ≤ (envApply env op).now := by
  obtain ⟨hs, hq⟩ := h
  cases op with
  | schedule dt a =>
    refine ⟨⟨qSorted_pqPush _ _ hs, fun e he => ?_⟩, le_refl _⟩
    rcases (mem_pqPush _ _ e).mp he with he | he
    · rw [he]
      show env.now ≤ env.now + dt
      exact le_add_of_nonneg_right hv
    · exact hq e he
  | scheduleAt tm a =>
    refine ⟨⟨qSorted_pqPush _ _ hs, fun e he => ?_⟩, le_refl _⟩
    rcases (mem_pqPush _ _ e).mp he with he | he
    · rw [he]; exact hv
    · exact hq e he
  | step =>
    cases henv : env.q with
    | nil =>
      cases env with
      | mk n q =>
        dsimp only at henv
        subst henv
        exact ⟨⟨hs, hq⟩, le_refl _⟩
    | cons e rest =>
      cases env with
      | mk n q =>
        dsimp only at henv
        subst henv
        rw [qSorted_cons] at hs
        refine ⟨⟨hs.2, fun x hx => hs.1 x hx⟩, hq e (List.mem_cons_self e rest)⟩

theorem envInv_fold (ops : List (EnvOp A)) :
    ∀ env, envInv env → envValid env ops →
      envInv (ops.foldl envApply env) ∧
        env.now ≤ (ops.foldl envApply env).now := by
  induction ops with
  | nil => intro env h _; exact ⟨h, le_refl _⟩
  | cons op ops ih =>
    intro env h hv
    obtain ⟨hop, hv2⟩ := hv
    obtain ⟨h2, hle⟩ := envInv_apply env op hop h
    obtain ⟨h3, hle2⟩ := ih (envApply env op) h2 hv2
    exact ⟨h3, le_trans hle hle2⟩

theorem envValid_append (l1 l2 : List (EnvOp A)) :
    ∀ env, envValid env (l1 ++ l2) →
      envValid env l1 ∧ envValid (l1.foldl envApply env) l2 := by
  induction l1 with
  | nil => intro env h; exact ⟨trivial, h⟩
  | cons op l1 ih =>
    intro env h
    obtain ⟨hop, h2⟩ := h
    obtain ⟨ha, hb⟩ := ih (envApply env op) h2
    exact ⟨⟨hop, ha⟩, hb⟩

def envRun (A : Type) (ops : List (EnvOp A)) : Env A :=
  ops.foldl envApply (mkEnv A)

/-- C5. Clock monotonicity: provided every schedule call in the driven
sequence uses a non-negative delay (and every scheduleAt a time not
before the clock), the virtual clock value now never decreases along the
sequence, and only step changes it: schedule and scheduleAt leave now
untouched. -/
theorem clock_monotonic (A : Type) (ops : List (EnvOp A))
    (h : envValid (mkEnv A) ops) (i j : ℕ) (hij : i ≤ j) :
    (envRun A (ops.take i)).now ≤ (envRun A (ops.take j)).now ∧
    (∀ (env : Env A) (dt : ℚ) (a : A), (env.schedule dt a).now = env.now) ∧
    (∀ (env : Env A) (tm : ℚ) (a : A), (env.scheduleAt tm a).now = env.now) := by
  refine ⟨?_, fun _ _ _ => rfl, fun _ _ _ => rfl⟩
  have hsplit : ops.take j = ops.take i ++ (ops.take j).drop i := by
    conv_lhs => rw [← List.take_append_drop i (ops.take j)]
    rw [List.take_take, min_eq_left hij]
  have hvj : envValid (mkEnv A) (ops.take j) := by
    have := envValid_append (ops.take j) (ops.drop j) (mkEnv A)
    rw [List.take_append_drop] at this
    exact (this h).1
  rw [hsplit] at hvj
  obtain ⟨hvi, hvrest⟩ := envValid_append _ _ _ hvj
  have hinv0 : envInv (mkEnv A) := ⟨List.Pairwise.nil, fun e he => absurd he (List.not_mem_nil e)⟩
  obtain ⟨hinvi, _⟩ := envInv_fold (ops.take i) (mkEnv A) hinv0 hvi
  obtain ⟨_, hle⟩ := envInv_fold ((ops.take j).drop i) _ hinvi hvrest
  have heq : envRun A (ops.take j) =
      ((ops.take j).drop i).foldl envApply (envRun A (ops.take i)) := by
    unfold envRun
    conv_lhs => rw [hsplit]
    rw [List.foldl_append]
  rw [heq]
  exact hle

/-- Witness for clock_monotonic on a concrete valid schedule/step
sequence. -/
theorem clock_monotonic_witness :
    (envRun ℕ ([EnvOp.schedule 2 5, EnvOp.step, EnvOp.schedule 1 6].take 1)).now ≤
      (envRun ℕ ([EnvOp.schedule 2 5, EnvOp.step, EnvOp.schedule 1 6].take 3)).now ∧
    (∀ (env : Env ℕ) (dt : ℚ) (a : ℕ), (env.schedule dt a).now = env.now) ∧
    (∀ (env : Env ℕ) (tm : ℚ) (a : ℕ), (env.scheduleAt tm a).now = env.now) :=
  clock_monotonic ℕ [EnvOp.schedule 2 5, EnvOp.step, EnvOp.schedule 1 6]
    (by exact ⟨by show (0:ℚ) ≤ 2; norm_num, trivial,
      by show (0:ℚ) ≤ 1; norm_num, trivial⟩)
    1 3 (by norm_num)

/-! Metrics (class Metrics): completed counter, per-item entry-time map,
cycle-time list, running WIP counter, and the time-weighted WIP integral
accum with its lastChange timestamp. The JavaScript Map of entry times is
modelled as an association list with the same set/get/delete
semantics. -/

def mapSet (m : List (ℕ × ℚ)) (k : ℕ) (v : ℚ) : List (ℕ × ℚ) :=
  match m with
  | [] => [(k, v)]
  | (k2, v2) :: rest =>
    if k2 = k then (k, v) :: rest else (k2, v2) :: mapSet rest k v

def mapGet (m : List (ℕ × ℚ)) (k : ℕ) : Option ℚ :=
  match m with
  | [] => none
  | (k2, v2) :: rest => if k2 = k then some v2 else mapGet rest k

def mapDelete (m : List (ℕ × ℚ)) (k : ℕ) : List (ℕ × ℚ) :=
  match m with
  | [] => []
  | (k2, v2) :: rest =>
    if k2 = k then rest else (k2, v2) :: mapDelete rest k

theorem mapGet_mapSet (m : List (ℕ × ℚ)) (k : ℕ) (v : ℚ) :
    mapGet (mapSet m k v) k = some v := by
  induction m with
  | nil => simp [mapSet, mapGet]
  | cons p rest ih =>
    cases p with
    | mk k2 v2 =>
      by_cases hk : k2 = k
      · simp [mapSet, mapGet, hk]
      · simp [mapSet, mapGet, hk, ih]

structure Metrics where
  completed : ℕ
  enterTimes : List (ℕ × ℚ)
  cycleTimes : List ℚ
  wip : ℤ
  lastChange : ℚ
  accum : ℚ
deriving DecidableEq

def mkMetrics : Metrics := ⟨0, [], [], 0, 0, 0⟩

/-- Metrics.bumpAccum: add wip_before times the elapsed span to the
integral and move lastChange to now. -/
def Metrics.bumpAccum (m : Metrics) (now : ℚ) : Metrics :=
  { m with accum := m.accum + (m.wip : ℚ) * (now - m.lastChange),
           lastChange := now }

/-- Metrics.startItem(id): bump the integral, increment WIP, record the
entry timestamp. -/
def Metrics.startItem (m : Metrics) (id : ℕ) (now : ℚ) : Metrics :=
  let m1 := m.bumpAccum now
  { m1 with wip := m1.wip + 1, enterTimes := mapSet m1.enterTimes id now }

/-- Metrics.finishItem(id): bump the integral, decrement WIP (clamped at
0), record one cycle-time sample when an entry timestamp exists (and
delete it), and increment completed. -/
def Metrics.finishItem (m : Metrics) (id : ℕ) (now : ℚ) : Metrics :=
  let m1 := m.bumpAccum now
  let m2 := { m1 with wip := max 0 (m1.wip - 1) }
  let m3 :=
    match mapGet m2.enterTimes id with
    | some t0 =>
      { m2 with cycleTimes := m2.cycleTimes ++ [now - t0],
                enterTimes := mapDelete m2.enterTimes id }
    | none => m2
  { m3 with completed := m3.completed + 1 }

/-- Metrics.finalize(simTime): close the last open WIP interval. -/
def Metrics.finalize (m : Metrics) (simTime : ℚ) : Metrics :=
  { m with accum := m.accum + (m.wip : ℚ) * (simTime - m.lastChange) }

/-- Metrics.avgWIP(simTime). -/
def Metrics.avgWIP (m : Metrics) (simTime : ℚ) : ℚ := m.accum / simTime

structure MetricsStatus where
  completed : ℕ
  wip : ℤ
  avgCycleTime : ℚ
deriving DecidableEq

/-- Metrics.getStatus(): completed, WIP, and the arithmetic mean of the
cycle-time samples (0 when there are none). -/
def Metrics.getStatus (m : Metrics) : MetricsStatus :=
  ⟨m.completed, m.wip,
    if m.cycleTimes.length = 0 then 0
    else m.cycleTimes.sum / (m.cycleTimes.length : ℚ)⟩

/-- C7. Metrics accumulator correctness: each WIP change (startItem or
finishItem) adds wip_before times (now - lastChange) to the time-weighted
integral and updates lastChange to now; finalize(totalTime) closes the
last open interval; average WIP is integral / totalTime; a finished item
with a recorded start contributes exactly one cycle-time sample equal to
finish - start (and its entry record is removed); average cycle time is
the arithmetic mean of the samples and 0 when there are none; completed
is incremented exactly once per finish, recorded start or not. -/
theorem metrics_accumulator (m : Metrics) (id : ℕ) (now t0 simTime : ℚ)
    (hrec : mapGet m.enterTimes id = some t0) :
    ((m.startItem id now).accum = m.accum + (m.wip : ℚ) * (now - m.lastChange) ∧
      (m.startItem id now).lastChange = now ∧
      (m.startItem id now).wip = m.wip + 1 ∧
      mapGet (m.startItem id now).enterTimes id = some now) ∧
    ((m.finishItem id now).accum = m.accum + (m.wip : ℚ) * (now - m.lastChange) ∧
      (m.finishItem id now).lastChange = now ∧
      (m.finishItem id now).wip = max 0 (m.wip - 1) ∧
      (m.finishItem id now).cycleTimes = m.cycleTimes ++ [now - t0] ∧
      (m.finishItem id now).completed = m.completed + 1) ∧
    ((m.finalize simTime).accum =
      m.accum + (m.wip : ℚ) * (simTime - m.lastChange)) ∧
    (m.avgWIP simTime = m.accum / simTime) ∧
    (m.getStatus.avgCycleTime =
      if m.cycleTimes = [] then 0
      else m.cycleTimes.sum / (m.cycleTimes.length : ℚ)) ∧
    (∀ mm : Metrics, ∀ id2 : ℕ, (mm.finishItem id2 now).completed =
      mm.completed + 1) := by
  refine ⟨⟨rfl, rfl, rfl, mapGet_mapSet _ _ _⟩, ?_, rfl, rfl, ?_, ?_⟩
  · unfold Metrics.finishItem Metrics.bumpAccum
    dsimp only
    rw [hrec]
    exact ⟨rfl, rfl, rfl, rfl, rfl⟩
  · unfold Metrics.getStatus
    by_cases hc : m.cycleTimes = []
    · simp [hc]
    · have hlen : m.cycleTimes.length ≠ 0 := by
        intro hz
        exact hc (List.length_eq_zero.mp hz)
      simp [hc, hlen]
  · intro mm id2
    unfold Metrics.finishItem Metrics.bumpAccum
    dsimp only
    cases mapGet mm.enterTimes id2 <;> rfl

/-- Witness for metrics_accumulator at a concrete accumulator state with
a recorded entry time for item 7. -/
theorem metrics_accumulator_witness :
    mapGet (Metrics.mk 0 [(7, 2)] [] 1 2 0).enterTimes 7 = some 2 ∧
    ((Metrics.mk 0 [(7, 2)] [] 1 2 0).finishItem 7 5).cycleTimes = [] ++ [(5 : ℚ) - 2] ∧
    ((Metrics.mk 0 [(7, 2)] [] 1 2 0).finishItem 7 5).completed = 0 + 1 :=
  ⟨rfl, ((metrics_accumulator (Metrics.mk 0 [(7, 2)] [] 1 2 0) 7 5 2 60 rfl).2.1).2.2.2.1,
    ((metrics_accumulator (Metrics.mk 0 [(7, 2)] [] 1 2 0) 7 5 2 60 rfl).2.1).2.2.2.2⟩

/-! Model parameters (interface SimParams and defaultParams; MIN = 1,
HOUR = 60 minutes). Times are rationals, resource capacities integers
(they feed Resource), buffer capacities naturals (they feed Store). -/

structure SimParams where
  randomSeed : ℕ
  simHours : ℚ
  arrivalMean : ℚ
  cutTime : ℚ
  cellTime : ℚ
  packTime : ℚ
  cutTimeVarLow : ℚ
  cutTimeVarHigh : ℚ
  cellTimeVarLow : ℚ
  cellTimeVarHigh : ℚ
  packTimeVarLow : ℚ
  packTimeVarHigh : ℚ
  cutterCapacity : ℤ
  robotCapacity : ℤ
  heaterCapacity : ℤ
  packerCapacity : ℤ
  buf12Cap : ℕ
  buf23Cap : ℕ
  stepDelayMs : ℚ
  failMTBF : ℚ
  failMTTR : ℚ
deriving DecidableEq

def defaultParams : SimParams :=
  { randomSeed := 42
    simHours := 1
    arrivalMean := 1.8
    cutTime := 1.2
    cellTime := 2.5
    packTime := 1.0
    cutTimeVarLow := 0.8
    cutTimeVarHigh := 1.2
    cellTimeVarLow := 0.8
    cellTimeVarHigh := 1.2
    packTimeVarLow := 0.8
    packTimeVarHigh := 1.3
    cutterCapacity := 1
    robotCapacity := 1
    heaterCapacity := 1
    packerCapacity := 1
    buf12Cap := 5
    buf23Cap := 5
    stepDelayMs := 250
    failMTBF := 90
    failMTTR := 6 }

/-! The production line and controller (classes Line and
FactorySimulation, merged into one state record, since the controller
owns exactly one Line). Every closure the source can place on the event
queue is a constructor of Ev; every closure it can place on a resource
wait queue is the item id it captured (for cutter/heater/packer) or a
RobotCont (for the robot, which is also acquired by the repair process);
the buffer consumer/producer callbacks capture nothing and are Unit.

The random draws are abstracted by a sample oracle d : the k-th
distribution call of a run (rng.expovariate for arrivals, failures and
repairs, rng.triangular for stage durations, in program order) returns
the rational d k. Each RNG call advances rngIdx by one, mirroring the
single shared generator; rngVal/expovariate/triangular above model the
concrete values the source draws. -/

inductive RobotCont where
  | work (part : ℕ)
  | repair
deriving DecidableEq

def RobotCont.isRepair : RobotCont → Bool
  | .repair => true
  | .work _ => false

inductive Ev where
  | arrival
  | cutDone (id : ℕ)
  | cellDone (part : ℕ)
  | packDone (part : ℕ)
  | failure
  | repairDone
deriving DecidableEq

def Ev.isCellDone : Ev → Bool
  | .cellDone _ => true
  | _ => false

def Ev.isRepairDone : Ev → Bool
  | .repairDone => true
  | _ => false

def Ev.isFailure : Ev → Bool
  | .failure => true
  | _ => false

structure SimSt where
  env : Env Ev
  rngIdx : ℕ
  nextItemId : ℕ
  metrics : Metrics
  cutter : Resource ℕ
  robot : Resource RobotCont
  heater : Resource ℕ
  packer : Resource ℕ
  buf12 : Store ℕ Unit Unit
  buf23 : Store ℕ Unit Unit
  robotFailuresEnabled : Bool
  isRobotFailed : Bool
  failureCount : ℕ
  lastFailureTime : Option ℚ
  estimatedNextFailureTime : Option ℚ
  params : SimParams
  isRunning : Bool

/-- One RNG distribution call: take the next value of the sample oracle
and advance the stream position. -/
def sample (d : ℕ → ℚ) (s : SimSt) : ℚ × SimSt :=
  (d s.rngIdx, { s with rngIdx := s.rngIdx + 1 })

def schedEv (s : SimSt) (dt : ℚ) (ev : Ev) : SimSt :=
  { s with env := s.env.schedule dt ev }

/-- Body of the cutter-acquire callback in startItemFlow: draw the
triangular cut duration and schedule the cut-done event. -/
def runCutAcq (d : ℕ → ℚ) (s : SimSt) (id : ℕ) : SimSt :=
  let p := sample d s
  schedEv p.2 p.1 (.cutDone id)

def cutterAcquire (d : ℕ → ℚ) (s : SimSt) (id : ℕ) : SimSt :=
  let r := s.cutter.acquire id
  let s1 := { s with cutter := r.1 }
  match r.2 with
  | some k => runCutAcq d s1 k
  | none => s1

def cutterRelease (d : ℕ → ℚ) (s : SimSt) : SimSt :=
  let r := s.cutter.release
  let s1 := { s with cutter := r.1 }
  match r.2 with
  | some k => runCutAcq d s1 k
  | none => s1

/-- Body of the heater-acquire callback in processCell: draw the
triangular cell duration and schedule the cell-done event. -/
def runHeaterAcq (d : ℕ → ℚ) (s : SimSt) (part : ℕ) : SimSt :=
  let p := sample d s
  schedEv p.2 p.1 (.cellDone part)

def heaterAcquire (d : ℕ → ℚ) (s : SimSt) (part : ℕ) : SimSt :=
  let r := s.heater.acquire part
  let s1 := { s with heater := r.1 }
  match r.2 with
  | some k => runHeaterAcq d s1 k
  | none => s1

def heaterRelease (d : ℕ → ℚ) (s : SimSt) : SimSt :=
  let r := s.heater.release
  let s1 := { s with heater := r.1 }
  match r.2 with
  | some k => runHeaterAcq d s1 k
  | none => s1

/-- A granted robot continuation: a work item moves on to acquire the
heater (fixed robot-then-heater order); the repair process draws the
repair time and schedules repair completion. -/
def runRobotCont (d : ℕ → ℚ) (s : SimSt) : RobotCont → SimSt
  | .work part => heaterAcquire d s part
  | .repair =>
    let p := sample d s
    schedEv p.2 p.1 .repairDone

def robotAcquire (d : ℕ → ℚ) (s : SimSt) (k : RobotCont) : SimSt :=
  let r := s.robot.acquire k
  let s1 := { s with robot := r.1 }
  match r.2 with
  | some k2 => runRobotCont d s1 k2
  | none => s1

def robotRelease (d : ℕ → ℚ) (s : SimSt) : SimSt :=
  let r := s.robot.release
  let s1 := { s with robot := r.1 }
  match r.2 with
  | some k2 => runRobotCont d s1 k2
  | none => s1

/-- Body of the packer-acquire callback in processPackaging: draw the
triangular pack duration and schedule the pack-done event. -/
def runPackAcq (d : ℕ → ℚ) (s : SimSt) (part : ℕ) : SimSt :=
  let p := sample d s
  schedEv p.2 p.1 (.packDone part)

def packerAcquire (d : ℕ → ℚ) (s : SimSt) (part : ℕ) : SimSt :=
  let r := s.packer.acquire part
  let s1 := { s with packer := r.1 }
  match r.2 with
  | some k => runPackAcq d s1 k
  | none => s1

def packerRelease (d : ℕ → ℚ) (s : SimSt) : SimSt :=
  let r := s.packer.release
  let s1 := { s with packer := r.1 }
  match r.2 with
  | some k => runPackAcq d s1 k
  | none => s1

/-- Line.processCell: acquire the robot as a work item. -/
def processCell (d : ℕ → ℚ) (s : SimSt) (part : ℕ) : SimSt :=
  robotAcquire d s (.work part)

/-- Line.processPackaging: acquire the packer. -/
def processPackaging (d : ℕ → ℚ) (s : SimSt) (part : ℕ) : SimSt :=
  packerAcquire d s part

/-- The cut-done event: buf12.put(itemId, release-the-cutter). A waiting
cell consumer is served first (processCell), then the producer callback
releases the cutter; a full buffer keeps the cutter held. -/
def buf12Put (d : ℕ → ℚ) (s : SimSt) (id : ℕ) : SimSt :=
  let r := s.buf12.put id ()
  let s1 := { s with buf12 := r.1 }
  match r.2 with
  | .handed _ item _ => cutterRelease d (processCell d s1 item)
  | .stored _ => cutterRelease d s1
  | .queued => s1

/-- Line.cellProcessingLoop: buf12.get with the cell consumer; on
delivery the freed slot may unblock a queued cutter put (its item is
admitted or handed over, then the cutter is released), then the
delivered item enters processCell. -/
def cellLoop (d : ℕ → ℚ) (s : SimSt) : SimSt :=
  let r := s.buf12.get ()
  let s1 := { s with buf12 := r.1 }
  match r.2 with
  | .got it unb =>
    let s2 :=
      match unb with
      | some (_, some (_, item2)) => cutterRelease d (processCell d s1 item2)
      | some (_, none) => cutterRelease d s1
      | none => s1
    processCell d s2 it
  | .waiting => s1

/-- The producer callback of buf23.put in processCell: release heater,
release robot, loop back to buf12. -/
def cellPutDone (d : ℕ → ℚ) (s : SimSt) : SimSt :=
  cellLoop d (robotRelease d (heaterRelease d s))

/-- The cell-done event: buf23.put(part, cellPutDone); a waiting pack
consumer is served first. -/
def buf23Put (d : ℕ → ℚ) (s : SimSt) (part : ℕ) : SimSt :=
  let r := s.buf23.put part ()
  let s1 := { s with buf23 := r.1 }
  match r.2 with
  | .handed _ item _ => cellPutDone d (processPackaging d s1 item)
  | .stored _ => cellPutDone d s1
  | .queued => s1

/-- Line.packingLoop: buf23.get with the pack consumer. -/
def packLoop (d : ℕ → ℚ) (s : SimSt) : SimSt :=
  let r := s.buf23.get ()
  let s1 := { s with buf23 := r.1 }
  match r.2 with
  | .got it unb =>
    let s2 :=
      match unb with
      | some (_, some (_, item2)) => cellPutDone d (processPackaging d s1 item2)
      | some (_, none) => cellPutDone d s1
      | none => s1
    processPackaging d s2 it
  | .waiting => s1

/-- Line.scheduleNextArrival: draw the exponential interarrival time and
schedule the next arrival. -/
def scheduleNextArrival (d : ℕ → ℚ) (s : SimSt) : SimSt :=
  let p := sample d s
  schedEv p.2 p.1 .arrival

/-- Line.scheduleNextFailure: draw the exponential uptime, record the
estimated next failure time, and schedule the failure event. -/
def scheduleNextFailure (d : ℕ → ℚ) (s : SimSt) : SimSt :=
  let p := sample d s
  let s1 := { p.2 with estimatedNextFailureTime := some (p.2.env.now + p.1) }
  schedEv s1 p.1 .failure

/-- Line.startItemFlow: the fresh item competes for the cutter. -/
def startItemFlow (d : ℕ → ℚ) (s : SimSt) (id : ℕ) : SimSt :=
  cutterAcquire d s id

/-- Execute one popped event action synchronously to completion. -/
def execEv (d : ℕ → ℚ) (s : SimSt) : Ev → SimSt
  | .arrival =>
    let id := s.nextItemId
    let s1 := { s with nextItemId := id + 1 }
    let s2 := { s1 with metrics := s1.metrics.startItem id s1.env.now }
    scheduleNextArrival d (startItemFlow d s2 id)
  | .cutDone id => buf12Put d s id
  | .cellDone part => buf23Put d s part
  | .packDone part2 =>
    let s1 := packerRelease d s
    let s2 := { s1 with metrics := s1.metrics.finishItem part2 s1.env.now }
    packLoop d s2
  | .failure =>
    let s1 := { s with isRobotFailed := true,
                       failureCount := s.failureCount + 1,
                       lastFailureTime := some s.env.now }
    robotAcquire d s1 .repair
  | .repairDone =>
    let s1 := { s with isRobotFailed := false }
    scheduleNextFailure d (robotRelease d s1)

/-- One driven step: env.step() pops the earliest pending action (doing
nothing on an empty queue), advances the clock to its timestamp, and
executes it. -/
def simStep (d : ℕ → ℚ) (s : SimSt) : SimSt :=
  match s.env.q with
  | [] => s
  | e :: rest => execEv d { s with env := ⟨e.t, rest⟩ } e.action

/-- A fresh controller state built from a configuration: fresh clock and
queue, RNG stream at its start, fresh metrics, and a fresh Line whose
resources and buffers carry the configured capacities (the Line
constructor plus the FactorySimulation constructor). -/
def mkLineSim (p : SimParams) : SimSt :=
  { env := mkEnv Ev
    rngIdx := 0
    nextItemId := 1
    metrics := mkMetrics
    cutter := mkResource ℕ p.cutterCapacity
    robot := mkResource RobotCont p.robotCapacity
    heater := mkResource ℕ p.heaterCapacity
    packer := mkResource ℕ p.packerCapacity
    buf12 := mkStore ℕ Unit Unit p.buf12Cap
    buf23 := mkStore ℕ Unit Unit p.buf23Cap
    robotFailuresEnabled := true
    isRobotFailed := false
    failureCount := 0
    lastFailureTime := none
    estimatedNextFailureTime := none
    params := p
    isRunning := false }

/-- Line.startSource: arm the arrival generator and start the two
perpetual consumer loops. -/
def startSource (d : ℕ → ℚ) (s : SimSt) : SimSt :=
  packLoop d (cellLoop d (scheduleNextArrival d s))

/-- Line.startRobotFailures. -/
def startRobotFailures (d : ℕ → ℚ) (s : SimSt) : SimSt :=
  if s.robotFailuresEnabled then scheduleNextFailure d s else s

/-- FactorySimulation.start(): no-op when already running, otherwise mark
running and arm the generators. -/
def startSim (d : ℕ → ℚ) (s : SimSt) : SimSt :=
  if s.isRunning then s
  else startRobotFailures d (startSource d { s with isRunning := true })

def initSim (d : ℕ → ℚ) (p : SimParams) : SimSt :=
  startSim d (mkLineSim p)

/-- The controller state after start() and n driven steps. -/
def runSim (d : ℕ → ℚ) (p : SimParams) (n : ℕ) : SimSt :=
  (simStep d)^[n] (initSim d p)

/-! Snapshots (getStatus / getState). -/

structure ResourceStatus where
  capacity : ℤ
  inUse : ℤ
  queueLength : ℕ
  utilization : ℚ
deriving DecidableEq

def Resource.getStatus (r : Resource κ) : ResourceStatus :=
  ⟨r.capacity, r.inUse, r.queue.length, (r.inUse : ℚ) / (r.capacity : ℚ)⟩

structure StoreStatus where
  capacity : ℕ
  items : ℕ
  getQueue : ℕ
  putQueue : ℕ
  utilization : ℚ
deriving DecidableEq

def Store.getStatus (s : Store T γ π) : StoreStatus :=
  ⟨s.capacity, s.items.length, s.getQ.length, s.putQ.length,
    (s.items.length : ℚ) / (s.capacity : ℚ)⟩

structure SimState where
  time : ℚ
  isRunning : Bool
  cutter : ResourceStatus
  robot : ResourceStatus
  robotIsFailed : Bool
  robotFailureCount : ℕ
  robotLastFailureTime : Option ℚ
  robotEstimatedNextFailureTime : Option ℚ
  heater : ResourceStatus
  packer : ResourceStatus
  buf12 : StoreStatus
  buf23 : StoreStatus
  metrics : MetricsStatus
deriving DecidableEq

/-- FactorySimulation.getState(). -/
def getState (s : SimSt) : SimState :=
  ⟨s.env.now, s.isRunning, s.cutter.getStatus, s.robot.getStatus,
    s.isRobotFailed, s.failureCount, s.lastFailureTime,
    s.estimatedNextFailureTime, s.heater.getStatus, s.packer.getStatus,
    s.buf12.getStatus, s.buf23.getStatus, s.metrics.getStatus⟩

/-- FactorySimulation.reset(): stop, reset the clock and queue, rebuild
the RNG from the seed (the sample stream restarts at position 0), reset
the metrics, and build a fresh Line from the current configuration —
exactly the fresh state of that configuration. -/
def resetSim (s : SimSt) : SimSt := mkLineSim s.params

/-! Partial configuration updates (updateParams with Partial of
SimParams): present fields override, absent fields keep their value, by
the object-spread merge of the source. -/

structure SimParamsUpdate where
  randomSeed : Option ℕ := none
  simHours : Option ℚ := none
  arrivalMean : Option ℚ := none
  cutTime : Option ℚ := none
  cellTime : Option ℚ := none
  packTime : Option ℚ := none
  cutTimeVarLow : Option ℚ := none
  cutTimeVarHigh : Option ℚ := none
  cellTimeVarLow : Option ℚ := none
  cellTimeVarHigh : Option ℚ := none
  packTimeVarLow : Option ℚ := none
  packTimeVarHigh : Option ℚ := none
  cutterCapacity : Option ℤ := none
  robotCapacity : Option ℤ := none
  heaterCapacity : Option ℤ := none
  packerCapacity : Option ℤ := none
  buf12Cap : Option ℕ := none
  buf23Cap : Option ℕ := none
  stepDelayMs : Option ℚ := none
  failMTBF : Option ℚ := none
  failMTTR : Option ℚ := none

def mergeParams (p : SimParams) (u : SimParamsUpdate) : SimParams :=
  { randomSeed := u.randomSeed.getD p.randomSeed
    simHours := u.simHours.getD p.simHours
    arrivalMean := u.arrivalMean.getD p.arrivalMean
    cutTime := u.cutTime.getD p.cutTime
    cellTime := u.cellTime.getD p.cellTime
    packTime := u.packTime.getD p.packTime
    cutTimeVarLow := u.cutTimeVarLow.getD p.cutTimeVarLow
    cutTimeVarHigh := u.cutTimeVarHigh.getD p.cutTimeVarHigh
    cellTimeVarLow := u.cellTimeVarLow.getD p.cellTimeVarLow
    cellTimeVarHigh := u.cellTimeVarHigh.getD p.cellTimeVarHigh
    packTimeVarLow := u.packTimeVarLow.getD p.packTimeVarLow
    packTimeVarHigh := u.packTimeVarHigh.getD p.packTimeVarHigh
    cutterCapacity := u.cutterCapacity.getD p.cutterCapacity
    robotCapacity := u.robotCapacity.getD p.robotCapacity
    heaterCapacity := u.heaterCapacity.getD p.heaterCapacity
    packerCapacity := u.packerCapacity.getD p.packerCapacity
    buf12Cap := u.buf12Cap.getD p.buf12Cap
    buf23Cap := u.buf23Cap.getD p.buf23Cap
    stepDelayMs := u.stepDelayMs.getD p.stepDelayMs
    failMTBF := u.failMTBF.getD p.failMTBF
    failMTTR := u.failMTTR.getD p.failMTTR }

/-- FactorySimulation.updateParams(newParams): merge the update into the
configuration, stop when running, and reset — which rebuilds everything
from the merged configuration. No validation is performed anywhere on
this path. -/
def updateParams (s : SimSt) (u : SimParamsUpdate) : SimSt :=
  resetSim { s with params := mergeParams s.params u }

/-- C8. Reset semantics: from any controller state whatsoever — hence
after any sequence of lifecycle and simulation operations — reset()
produces a state whose snapshot has time 0, completed 0, WIP 0, every
resource with inUse 0 and an empty wait queue at the capacity of the
current configuration, both buffers empty with empty put/get queues,
robot not failed with failure count 0, an empty event queue, and the
sample stream back at its start; indeed the whole state is exactly the
fresh one rebuilt from the current configuration. -/
theorem reset_semantics (s : SimSt) :
    (getState (resetSim s)).time = 0 ∧
    (getState (resetSim s)).isRunning = false ∧
    (getState (resetSim s)).metrics.completed = 0 ∧
    (getState (resetSim s)).metrics.wip = 0 ∧
    (getState (resetSim s)).cutter.inUse = 0 ∧
    (getState (resetSim s)).cutter.queueLength = 0 ∧
    (getState (resetSim s)).cutter.capacity = s.params.cutterCapacity ∧
    (getState (resetSim s)).robot.inUse = 0 ∧
    (getState (resetSim s)).robot.queueLength = 0 ∧
    (getState (resetSim s)).robot.capacity = s.params.robotCapacity ∧
    (getState (resetSim s)).heater.inUse = 0 ∧
    (getState (resetSim s)).heater.queueLength = 0 ∧
    (getState (resetSim s)).heater.capacity = s.params.heaterCapacity ∧
    (getState (resetSim s)).packer.inUse = 0 ∧
    (getState (resetSim s)).packer.queueLength = 0 ∧
    (getState (resetSim s)).packer.capacity = s.params.packerCapacity ∧
    (getState (resetSim s)).buf12.items = 0 ∧
    (getState (resetSim s)).buf12.getQueue = 0 ∧
    (getState (resetSim s)).buf12.putQueue = 0 ∧
    (getState (resetSim s)).buf12.capacity = s.params.buf12Cap ∧
    (getState (resetSim s)).buf23.items = 0 ∧
    (getState (resetSim s)).buf23.getQueue = 0 ∧
    (getState (resetSim s)).buf23.putQueue = 0 ∧
    (getState (resetSim s)).buf23.capacity = s.params.buf23Cap ∧
    (getState (resetSim s)).robotIsFailed = false ∧
    (getState (resetSim s)).robotFailureCount = 0 ∧
    (resetSim s).env.q = [] ∧
    (resetSim s).rngIdx = 0 ∧
    resetSim s = mkLineSim s.params :=
  ⟨rfl, rfl, rfl, rfl, rfl, rfl, rfl, rfl, rfl, rfl, rfl, rfl, rfl, rfl,
    rfl, rfl, rfl, rfl, rfl, rfl, rfl, rfl, rfl, rfl, rfl, rfl, rfl, rfl, rfl⟩

/-- Snapshot sequence returned by getState after each of the first n
driven steps. -/
def snapshots (d : ℕ → ℚ) (p : SimParams) (n : ℕ) : List SimState :=
  (List.range n).map (fun k => getState (runSim d p (k + 1)))

/-- Final metrics at the horizon: finalize at simHours * HOUR and take
the metrics block of the snapshot. -/
def finalMetrics (d : ℕ → ℚ) (p : SimParams) (n : ℕ) : MetricsStatus :=
  (((runSim d p n).metrics).finalize (p.simHours * 60)).getStatus

/-- C1. Determinism: the RNG is a pure function of its state, so equal
seeds yield the identical output sequence under identical call order;
and the whole engine is a pure function of the configuration, the sample
stream it induces, and the number of driven steps, so two executions
with identical SimParams (including randomSeed, hence identical sample
streams) and the same number of driven steps return identical snapshot
sequences from getState and identical finalized metrics. -/
theorem determinism (p1 p2 : SimParams) (d1 d2 : ℕ → ℚ) (n1 n2 : ℕ)
    (hp : p1 = p2) (hd : d1 = d2) (hn : n1 = n2) :
    (∀ seed1 seed2 : ℕ, seed1 = seed2 →
      ∀ k, rngVal seed1 k = rngVal seed2 k ∧
        rngState seed1 k = rngState seed2 k) ∧
    snapshots d1 p1 n1 = snapshots d2 p2 n2 ∧
    finalMetrics d1 p1 n1 = finalMetrics d2 p2 n2 := by
  subst hp
  subst hd
  subst hn
  exact ⟨fun a b hab k => by rw [hab]; exact ⟨rfl, rfl⟩, rfl, rfl⟩

/-- Witness for determinism at the default configuration, a concrete
sample stream, and three driven steps. -/
theorem determinism_witness :
    snapshots (fun _ => 1) defaultParams 3 = snapshots (fun _ => 1) defaultParams 3 ∧
    finalMetrics (fun _ => 1) defaultParams 3 = finalMetrics (fun _ => 1) defaultParams 3 ∧
    rngVal 42 0 = rngVal 42 0 :=
  ⟨(determinism defaultParams defaultParams (fun _ => 1) (fun _ => 1) 3 3
      rfl rfl rfl).2.1,
    (determinism defaultParams defaultParams (fun _ => 1) (fun _ => 1) 3 3
      rfl rfl rfl).2.2,
    ((determinism defaultParams defaultParams (fun _ => 1) (fun _ => 1) 3 3
      rfl rfl rfl).1 42 42 rfl 0).1⟩

/-- C6 counterexample: updateParams does not reject invalid values. A
partial update carrying a zero cutter capacity (and one carrying a
negative cut time) is accepted, merged verbatim into the configuration,
and applied — the rebuilt cutter really has capacity 0 — instead of
raising any ConfigurationError (no error path exists in the engine). -/
theorem updateParams_accepts_invalid :
    (updateParams (mkLineSim defaultParams)
      { cutterCapacity := some 0 }).params.cutterCapacity = 0 ∧
    (updateParams (mkLineSim defaultParams)
      { cutterCapacity := some 0 }).cutter.capacity = 0 ∧
    (updateParams (mkLineSim defaultParams)
      { cutTime := some (-5) }).params.cutTime = -5 :=
  ⟨rfl, rfl, rfl⟩

/-- C6 amended: updateParams performs no validation at all: it merges any
partial update — invalid values included — verbatim into the
configuration (no clamping), then unconditionally stops and resets,
rebuilding the line at the new values; no ConfigurationError exists. -/
theorem updateParams_applies_verbatim (s : SimSt) (u : SimParamsUpdate)
    (c : ℤ) (tq : ℚ) (hc : u.cutterCapacity = some c)
    (ht : u.cutTime = some tq) :
    (updateParams s u).params = mergeParams s.params u ∧
    (updateParams s u).params.cutterCapacity = c ∧
    (updateParams s u).cutter.capacity = c ∧
    (updateParams s u).params.cutTime = tq ∧
    (updateParams s u).env.now = 0 ∧
    (updateParams s u).isRunning = false ∧
    updateParams s u = mkLineSim (mergeParams s.params u) := by
  refine ⟨rfl, ?_, ?_, ?_, rfl, rfl, rfl⟩
  · show (u.cutterCapacity.getD s.params.cutterCapacity) = c
    rw [hc]
    rfl
  · show (u.cutterCapacity.getD s.params.cutterCapacity) = c
    rw [hc]
    rfl
  · show (u.cutTime.getD s.params.cutTime) = tq
    rw [ht]
    rfl

/-- Witness for updateParams_applies_verbatim at a concrete invalid
update. -/
theorem updateParams_applies_verbatim_witness :
    (updateParams (mkLineSim defaultParams)
      { cutterCapacity := some 0, cutTime := some (-1) }).params.cutterCapacity = 0 ∧
    (updateParams (mkLineSim defaultParams)
      { cutterCapacity := some 0, cutTime := some (-1) }).cutter.capacity = 0 ∧
    (updateParams (mkLineSim defaultParams)
      { cutterCapacity := some 0, cutTime := some (-1) }).params.cutTime = -1 :=
  ⟨(updateParams_applies_verbatim (mkLineSim defaultParams)
      { cutterCapacity := some 0, cutTime := some (-1) } 0 (-1) rfl rfl).2.1,
    (updateParams_applies_verbatim (mkLineSim defaultParams)
      { cutterCapacity := some 0, cutTime := some (-1) } 0 (-1) rfl rfl).2.2.1,
    (updateParams_applies_verbatim (mkLineSim defaultParams)
      { cutterCapacity := some 0, cutTime := some (-1) } 0 (-1) rfl rfl).2.2.2.1⟩

/-! Robot accounting for the failure back-pressure property. With
robotCapacity = 1, a unit of the robot is held by a cell work item from
the instant its acquire is granted until its buf23 put-callback releases
it — observable between events as a waiting entry in the heater queue, a
pending cellDone event, or a blocked producer entry in buf23.putQ — or
by the repair process from its grant until the repairDone event runs
(observable as a pending repairDone event). The repair continuation
itself is either queued on the robot or holding it, exactly while
isRobotFailed is set. -/

def heaterTokens (s : SimSt) : ℕ := s.heater.queue.length

def cellDoneTokens (s : SimSt) : ℕ :=
  s.env.q.countP (fun e => e.action.isCellDone)

def putQ23Tokens (s : SimSt) : ℕ := s.buf23.putQ.length

def repairDoneTokens (s : SimSt) : ℕ :=
  s.env.q.countP (fun e => e.action.isRepairDone)

def repairQueueTokens (s : SimSt) : ℕ :=
  s.robot.queue.countP (fun k => k.isRepair)

def failureTokens (s : SimSt) : ℕ :=
  s.env.q.countP (fun e => e.action.isFailure)

/-- The robot-holder count: every held robot unit is observable as
exactly one of these tokens. -/
def tokens (s : SimSt) : ℕ :=
  heaterTokens s + cellDoneTokens s + putQ23Tokens s + repairDoneTokens s

/-- The robot-relevant view is unchanged between two states. -/
def RvEq (s1 s2 : SimSt) : Prop :=
  s1.robot = s2.robot ∧
  heaterTokens s1 = heaterTokens s2 ∧
  cellDoneTokens s1 = cellDoneTokens s2 ∧
  putQ23Tokens s1 = putQ23Tokens s2 ∧
  repairDoneTokens s1 = repairDoneTokens s2 ∧
  failureTokens s1 = failureTokens s2 ∧
  s1.isRobotFailed = s2.isRobotFailed

/-- Robot balance at capacity 1, with x unaccounted holders (x = 1 only
transiently, while the event popped for execution has released its token
but its synchronous handler has not yet released the robot). -/
def Core (s : SimSt) (x : ℕ) : Prop :=
  s.robot.capacity = 1 ∧
  0 ≤ s.robot.inUse ∧ s.robot.inUse ≤ 1 ∧
  (s.robot.queue ≠ [] → s.robot.inUse = 1) ∧
  s.robot.inUse = (tokens s : ℤ) + (x : ℤ)

/-- The parts of the invariant that the work pipeline leaves alone. -/
def Pres (s1 s2 : SimSt) : Prop :=
  s1.robot.capacity = s2.robot.capacity ∧
  repairQueueTokens s1 + repairDoneTokens s1 =
    repairQueueTokens s2 + repairDoneTokens s2 ∧
  failureTokens s1 = failureTokens s2 ∧
  s1.isRobotFailed = s2.isRobotFailed

/-- Repair-token and failure-event accounting: while failed there is
exactly one repair continuation in the system (queued on the robot or
holding it) and no pending failure event; while healthy there is exactly
one pending failure event and no repair continuation. -/
def RepAcct (s : SimSt) : Prop :=
  repairQueueTokens s + repairDoneTokens s =
    (if s.isRobotFailed then 1 else 0) ∧
  failureTokens s = (if s.isRobotFailed then 0 else 1)

def RobotInv (s : SimSt) : Prop := Core s 0 ∧ RepAcct s

theorem RvEq_refl (s : SimSt) : RvEq s s :=
  ⟨rfl, rfl, rfl, rfl, rfl, rfl, rfl⟩

theorem RvEq_trans {a b c : SimSt} (h1 : RvEq a b) (h2 : RvEq b c) :
    RvEq a c := by
  obtain ⟨x1, x2, x3, x4, x5, x6, x7⟩ := h1
  obtain ⟨y1, y2, y3, y4, y5, y6, y7⟩ := h2
  exact ⟨x1.trans y1, x2.trans y2, x3.trans y3, x4.trans y4, x5.trans y5,
    x6.trans y6, x7.trans y7⟩

theorem tokens_of_RvEq {s1 s2 : SimSt} (h : RvEq s1 s2) :
    tokens s1 = tokens s2 := by
  obtain ⟨_, h2, h3, h4, h5, _, _⟩ := h
  unfold tokens
  omega

theorem Core_of_RvEq {s1 s2 : SimSt} {x : ℕ} (h : RvEq s1 s2)
    (hc : Core s2 x) : Core s1 x := by
  have ht := tokens_of_RvEq h
  obtain ⟨hr, _, _, _, _, _, _⟩ := h
  obtain ⟨c1, c2, c3, c4, c5⟩ := hc
  refine ⟨by rw [hr]; exact c1, by rw [hr]; exact c2, by rw [hr]; exact c3,
    by rw [hr]; exact c4, by rw [hr, ht]; exact c5⟩

theorem Pres_of_RvEq {s1 s2 : SimSt} (h : RvEq s1 s2) : Pres s1 s2 := by
  obtain ⟨hr, _, _, _, h5, h6, h7⟩ := h
  refine ⟨by rw [hr], ?_, h6, h7⟩
  unfold repairQueueTokens
  rw [hr, h5]

theorem Pres_trans {a b c : SimSt} (h1 : Pres a b) (h2 : Pres b c) :
    Pres a c := by
  obtain ⟨x1, x2, x3, x4⟩ := h1
  obtain ⟨y1, y2, y3, y4⟩ := h2
  exact ⟨x1.trans y1, x2.trans y2, x3.trans y3, x4.trans y4⟩

theorem RepAcct_of_Pres {s1 s2 : SimSt} (h : Pres s1 s2)
    (ha : RepAcct s2) : RepAcct s1 := by
  obtain ⟨_, h2, h3, h4⟩ := h
  obtain ⟨a1, a2⟩ := ha
  rw [RepAcct, h2, h3, h4]
  exact ⟨a1, a2⟩

theorem cellDoneTokens_schedEv (s : SimSt) (dt : ℚ) (ev : Ev) :
    cellDoneTokens (schedEv s dt ev) =
      cellDoneTokens s + (if ev.isCellDone then 1 else 0) := by
  unfold cellDoneTokens schedEv Env.schedule
  dsimp only
  rw [countP_pqPush]

theorem repairDoneTokens_schedEv (s : SimSt) (dt : ℚ) (ev : Ev) :
    repairDoneTokens (schedEv s dt ev) =
      repairDoneTokens s + (if ev.isRepairDone then 1 else 0) := by
  unfold repairDoneTokens schedEv Env.schedule
  dsimp only
  rw [countP_pqPush]

theorem failureTokens_schedEv (s : SimSt) (dt : ℚ) (ev : Ev) :
    failureTokens (schedEv s dt ev) =
      failureTokens s + (if ev.isFailure then 1 else 0) := by
  unfold failureTokens schedEv Env.schedule
  dsimp only
  rw [countP_pqPush]

theorem RvEq_schedEv (s : SimSt) (dt : ℚ) (ev : Ev)
    (h1 : ev.isCellDone = false) (h2 : ev.isRepairDone = false)
    (h3 : ev.isFailure = false) : RvEq (schedEv s dt ev) s := by
  refine ⟨rfl, rfl, ?_, rfl, ?_, ?_, rfl⟩
  · rw [cellDoneTokens_schedEv, h1]
    simp
  · rw [repairDoneTokens_schedEv, h2]
    simp
  · rw [failureTokens_schedEv, h3]
    simp

theorem RvEq_sample (d : ℕ → ℚ) (s : SimSt) : RvEq (sample d s).2 s :=
  ⟨rfl, rfl, rfl, rfl, rfl, rfl, rfl⟩

theorem RvEq_setCutter (s : SimSt) (c : Resource ℕ) :
    RvEq { s with cutter := c } s :=
  ⟨rfl, rfl, rfl, rfl, rfl, rfl, rfl⟩

theorem RvEq_setPacker (s : SimSt) (c : Resource ℕ) :
    RvEq { s with packer := c } s :=
  ⟨rfl, rfl, rfl, rfl, rfl, rfl, rfl⟩

theorem RvEq_setBuf12 (s : SimSt) (b : Store ℕ Unit Unit) :
    RvEq { s with buf12 := b } s :=
  ⟨rfl, rfl, rfl, rfl, rfl, rfl, rfl⟩

theorem RvEq_setMetrics (s : SimSt) (m : Metrics) :
    RvEq { s with metrics := m } s :=
  ⟨rfl, rfl, rfl, rfl, rfl, rfl, rfl⟩

theorem RvEq_setNextItemId (s : SimSt) (n : ℕ) :
    RvEq { s with nextItemId := n } s :=
  ⟨rfl, rfl, rfl, rfl, rfl, rfl, rfl⟩

theorem RvEq_setMetricsNextItemId (s : SimSt) (n : ℕ) (m : Metrics) :
    RvEq { s with nextItemId := n, metrics := m } s :=
  ⟨rfl, rfl, rfl, rfl, rfl, rfl, rfl⟩

theorem RvEq_setEstFailure (s : SimSt) (t : Option ℚ) :
    RvEq { s with estimatedNextFailureTime := t } s :=
  ⟨rfl, rfl, rfl, rfl, rfl, rfl, rfl⟩

theorem runCutAcq_rv (d : ℕ → ℚ) (s : SimSt) (id : ℕ) :
    RvEq (runCutAcq d s id) s := by
  unfold runCutAcq
  exact RvEq_trans (RvEq_schedEv _ _ _ rfl rfl rfl) (RvEq_sample d s)

theorem cutterAcquire_rv (d : ℕ → ℚ) (s : SimSt) (id : ℕ) :
    RvEq (cutterAcquire d s id) s := by
  unfold cutterAcquire
  dsimp only
  cases (s.cutter.acquire id).2 with
  | some k => exact RvEq_trans (runCutAcq_rv d _ k) (RvEq_setCutter s _)
  | none => exact RvEq_setCutter s _

theorem cutterRelease_rv (d : ℕ → ℚ) (s : SimSt) :
    RvEq (cutterRelease d s) s := by
  unfold cutterRelease
  dsimp only
  cases s.cutter.release.2 with
  | some k => exact RvEq_trans (runCutAcq_rv d _ k) (RvEq_setCutter s _)
  | none => exact RvEq_setCutter s _

theorem runPackAcq_rv (d : ℕ → ℚ) (s : SimSt) (part : ℕ) :
    RvEq (runPackAcq d s part) s := by
  unfold runPackAcq
  exact RvEq_trans (RvEq_schedEv _ _ _ rfl rfl rfl) (RvEq_sample d s)

theorem packerAcquire_rv (d : ℕ → ℚ) (s : SimSt) (part : ℕ) :
    RvEq (packerAcquire d s part) s := by
  unfold packerAcquire
  dsimp only
  cases (s.packer.acquire part).2 with
  | some k => exact RvEq_trans (runPackAcq_rv d _ k) (RvEq_setPacker s _)
  | none => exact RvEq_setPacker s _

theorem packerRelease_rv (d : ℕ → ℚ) (s : SimSt) :
    RvEq (packerRelease d s) s := by
  unfold packerRelease
  dsimp only
  cases s.packer.release.2 with
  | some k => exact RvEq_trans (runPackAcq_rv d _ k) (RvEq_setPacker s _)
  | none => exact RvEq_setPacker s _

theorem processPackaging_rv (d : ℕ → ℚ) (s : SimSt) (part : ℕ) :
    RvEq (processPackaging d s part) s :=
  packerAcquire_rv d s part

theorem scheduleNextArrival_rv (d : ℕ → ℚ) (s : SimSt) :
    RvEq (scheduleNextArrival d s) s := by
  unfold scheduleNextArrival
  exact RvEq_trans (RvEq_schedEv _ _ _ rfl rfl rfl) (RvEq_sample d s)

theorem Resource.acquire_spec (r : Resource κ) (k : κ) :
    (r.inUse < r.capacity ∧
      r.acquire k = (⟨r.capacity, r.inUse + 1, r.queue⟩, some k)) ∨
    (¬r.inUse < r.capacity ∧
      r.acquire k = (⟨r.capacity, r.inUse, r.queue ++ [k]⟩, none)) := by
  by_cases h : r.inUse < r.capacity
  · exact Or.inl ⟨h, by unfold Resource.acquire; rw [if_pos h]⟩
  · exact Or.inr ⟨h, by unfold Resource.acquire; rw [if_neg h]⟩

theorem Resource.release_spec (r : Resource κ) :
    (r.queue = [] ∧
      r.release = (⟨r.capacity, max 0 (r.inUse - 1), r.queue⟩, none)) ∨
    (∃ k rest, r.queue = k :: rest ∧
      r.release =
        (⟨r.capacity, max 0 (r.inUse - 1) + 1, rest⟩, some k)) := by
  cases hq : r.queue with
  | nil => exact Or.inl ⟨rfl, by unfold Resource.release; rw [hq]⟩
  | cons k rest =>
    exact Or.inr ⟨k, rest, rfl, by unfold Resource.release; rw [hq]⟩

theorem Store.put_spec (s : Store T γ π) (item : T) (cb : π) :
    (∃ g gs, s.getQ = g :: gs ∧
      s.put item cb =
        (⟨s.capacity, s.items, gs, s.putQ⟩, .handed g item cb)) ∨
    (s.getQ = [] ∧ s.items.length < s.capacity ∧
      s.put item cb =
        (⟨s.capacity, s.items ++ [item], s.getQ, s.putQ⟩, .stored cb)) ∨
    (s.getQ = [] ∧ ¬s.items.length < s.capacity ∧
      s.put item cb =
        (⟨s.capacity, s.items, s.getQ, s.putQ ++ [(item, cb)]⟩,
          .queued)) := by
  cases hg : s.getQ with
  | cons g gs =>
    exact Or.inl ⟨g, gs, rfl, by unfold Store.put; rw [hg]⟩
  | nil =>
    by_cases hlt : s.items.length < s.capacity
    · exact Or.inr (Or.inl ⟨rfl, hlt,
        by unfold Store.put; rw [hg]; dsimp only; rw [if_pos hlt]⟩)
    · exact Or.inr (Or.inr ⟨rfl, hlt,
        by unfold Store.put; rw [hg]; dsimp only; rw [if_neg hlt]⟩)

theorem Store.get_spec (s : Store T γ π) (cb : γ) :
    (s.items = [] ∧
      s.get cb =
        (⟨s.capacity, s.items, s.getQ ++ [cb], s.putQ⟩, .waiting)) ∨
    (∃ it its, s.items = it :: its ∧ s.putQ = [] ∧
      s.get cb = (⟨s.capacity, its, s.getQ, s.putQ⟩, .got it none)) ∨
    (∃ it its item2 pcb ps, s.items = it :: its ∧
      s.putQ = (item2, pcb) :: ps ∧ s.getQ = [] ∧
      s.get cb = (⟨s.capacity, its ++ [item2], s.getQ, ps⟩,
        .got it (some (pcb, none)))) ∨
    (∃ it its item2 pcb ps g gs, s.items = it :: its ∧
      s.putQ = (item2, pcb) :: ps ∧ s.getQ = g :: gs ∧
      s.get cb = (⟨s.capacity, its, gs, ps⟩,
        .got it (some (pcb, some (g, item2))))) := by
  cases hi : s.items with
  | nil => exact Or.inl ⟨rfl, by unfold Store.get; rw [hi]⟩
  | cons it its =>
    cases hp : s.putQ with
    | nil =>
      exact Or.inr (Or.inl ⟨it, its, rfl, rfl,
        by unfold Store.get; rw [hi, hp]⟩)
    | cons p ps =>
      cases p with
      | mk item2 pcb =>
        cases hg : s.getQ with
        | nil =>
          exact Or.inr (Or.inr (Or.inl ⟨it, its, item2, pcb, ps, rfl, rfl, rfl,
            by unfold Store.get; rw [hi, hp, hg]⟩))
        | cons g gs =>
          exact Or.inr (Or.inr (Or.inr ⟨it, its, item2, pcb, ps, g, gs,
            rfl, rfl, rfl, by unfold Store.get; rw [hi, hp, hg]⟩))

theorem robot_runHeaterAcq (d : ℕ → ℚ) (s : SimSt) (part : ℕ) :
    (runHeaterAcq d s part).robot = s.robot := rfl

theorem isFailed_runHeaterAcq (d : ℕ → ℚ) (s : SimSt) (part : ℕ) :
    (runHeaterAcq d s part).isRobotFailed = s.isRobotFailed := rfl

theorem repairQueueTokens_runHeaterAcq (d : ℕ → ℚ) (s : SimSt) (part : ℕ) :
    repairQueueTokens (runHeaterAcq d s part) = repairQueueTokens s := rfl

theorem repairDoneTokens_runHeaterAcq (d : ℕ → ℚ) (s : SimSt) (part : ℕ) :
    repairDoneTokens (runHeaterAcq d s part) = repairDoneTokens s := by
  unfold runHeaterAcq
  rw [repairDoneTokens_schedEv]
  rfl

theorem failureTokens_runHeaterAcq (d : ℕ → ℚ) (s : SimSt) (part : ℕ) :
    failureTokens (runHeaterAcq d s part) = failureTokens s := by
  unfold runHeaterAcq
  rw [failureTokens_schedEv]
  rfl

theorem heaterTokens_schedEv (s : SimSt) (dt : ℚ) (ev : Ev) :
    heaterTokens (schedEv s dt ev) = heaterTokens s := rfl

theorem putQ23Tokens_schedEv (s : SimSt) (dt : ℚ) (ev : Ev) :
    putQ23Tokens (schedEv s dt ev) = putQ23Tokens s := rfl

theorem tokens_runHeaterAcq (d : ℕ → ℚ) (s : SimSt) (part : ℕ) :
    tokens (runHeaterAcq d s part) = tokens s + 1 := by
  unfold runHeaterAcq tokens
  dsimp only
  rw [cellDoneTokens_schedEv, heaterTokens_schedEv, putQ23Tokens_schedEv,
    repairDoneTokens_schedEv]
  rw [(RvEq_sample d s).2.1, (RvEq_sample d s).2.2.1,
    (RvEq_sample d s).2.2.2.1, (RvEq_sample d s).2.2.2.2.1]
  simp [Ev.isCellDone, Ev.isRepairDone]
  omega

theorem heaterAcquire_spec (d : ℕ → ℚ) (s : SimSt) (part : ℕ) :
    (heaterAcquire d s part).robot = s.robot ∧
    tokens (heaterAcquire d s part) = tokens s + 1 ∧
    Pres (heaterAcquire d s part) s := by
  unfold heaterAcquire
  rcases Resource.acquire_spec s.heater part with ⟨hlt, heq⟩ | ⟨hlt, heq⟩ <;>
    rw [heq] <;> dsimp only
  · refine ⟨robot_runHeaterAcq d _ part, ?_, ?_⟩
    · rw [tokens_runHeaterAcq]
      rfl
    · refine ⟨?_, ?_, ?_, ?_⟩
      · rw [robot_runHeaterAcq]
      · rw [repairQueueTokens_runHeaterAcq, repairDoneTokens_runHeaterAcq]
        rfl
      · rw [failureTokens_runHeaterAcq]
        rfl
      · rw [isFailed_runHeaterAcq]
  · refine ⟨rfl, ?_, rfl, rfl, rfl, rfl⟩
    show (s.heater.queue ++ [part]).length + cellDoneTokens s +
      putQ23Tokens s + repairDoneTokens s = tokens s + 1
    rw [List.length_append, List.length_singleton]
    unfold tokens heaterTokens
    omega

theorem heaterRelease_spec (d : ℕ → ℚ) (s : SimSt) :
    (heaterRelease d s).robot = s.robot ∧
    tokens (heaterRelease d s) = tokens s ∧
    Pres (heaterRelease d s) s := by
  unfold heaterRelease
  rcases Resource.release_spec s.heater with ⟨hq, heq⟩ | ⟨k, rest, hq, heq⟩ <;>
    rw [heq] <;> dsimp only
  · exact ⟨rfl, rfl, rfl, rfl, rfl, rfl⟩
  · refine ⟨robot_runHeaterAcq d _ k, ?_, ?_⟩
    · rw [tokens_runHeaterAcq]
      show rest.length + cellDoneTokens s + putQ23Tokens s +
        repairDoneTokens s + 1 = tokens s
      unfold tokens heaterTokens
      rw [hq, List.length_cons]
      omega
    · refine ⟨?_, ?_, ?_, ?_⟩
      · rw [robot_runHeaterAcq]
      · rw [repairQueueTokens_runHeaterAcq, repairDoneTokens_runHeaterAcq]
        rfl
      · rw [failureTokens_runHeaterAcq]
        rfl
      · rw [isFailed_runHeaterAcq]

/-- Core of a state with one more granted robot unit than its slack-x
balance: heaterAcquire turns the fresh holder into a token. -/
theorem heaterAcquire_core (d : ℕ → ℚ) (s : SimSt) (part : ℕ) (x : ℕ)
    (h : Core s (x + 1)) : Core (heaterAcquire d s part) x := by
  obtain ⟨hcap, h0, h1, hqf, hbal⟩ := h
  obtain ⟨hr, ht, _⟩ := heaterAcquire_spec d s part
  rw [Core, hr, ht]
  refine ⟨hcap, h0, h1, hqf, ?_⟩
  rw [hbal]
  push_cast
  ring

theorem processCell_spec (d : ℕ → ℚ) (s : SimSt) (part : ℕ) (x : ℕ)
    (h : Core s x) : Core (processCell d s part) x ∧
      Pres (processCell d s part) s := by
  obtain ⟨hcap, h0, h1, hqf, hbal⟩ := h
  unfold processCell robotAcquire
  rcases Resource.acquire_spec s.robot (.work part) with ⟨hlt, heq⟩ |
    ⟨hlt, heq⟩ <;> rw [heq] <;> dsimp only [runRobotCont]
  · have hcore : Core { s with
        robot := (⟨s.robot.capacity, s.robot.inUse + 1, s.robot.queue⟩ :
          Resource RobotCont) } (x + 1) := by
      refine ⟨hcap, ?_, ?_, ?_, ?_⟩
      · show (0 : ℤ) ≤ s.robot.inUse + 1
        omega
      · show s.robot.inUse + 1 ≤ 1
        omega
      · intro _
        show s.robot.inUse + 1 = 1
        omega
      · show s.robot.inUse + 1 = (tokens s : ℤ) + ((x : ℤ) + 1)
        rw [hbal]
        ring
    refine ⟨heaterAcquire_core d _ part x (by
      convert hcore using 2), ?_⟩
    · refine Pres_trans (heaterAcquire_spec d _ part).2.2 ⟨rfl, ?_, rfl, rfl⟩
      show s.robot.queue.countP (fun k => k.isRepair) + repairDoneTokens s =
        repairQueueTokens s + repairDoneTokens s
      rfl
  · refine ⟨⟨hcap, h0, h1, ?_, ?_⟩, ⟨rfl, ?_, rfl, rfl⟩⟩
    · intro _
      show s.robot.inUse = 1
      omega
    · show s.robot.inUse = (tokens s : ℤ) + (x : ℤ)
      exact hbal
    · show (s.robot.queue ++ [RobotCont.work part]).countP
        (fun k => k.isRepair) + repairDoneTokens s =
        repairQueueTokens s + repairDoneTokens s
      rw [List.countP_append]
      show repairQueueTokens s + 0 + repairDoneTokens s = _
      omega

theorem robot_runRepair (d : ℕ → ℚ) (s : SimSt) :
    (runRobotCont d s .repair).robot = s.robot := rfl

theorem isFailed_runRepair (d : ℕ → ℚ) (s : SimSt) :
    (runRobotCont d s .repair).isRobotFailed = s.isRobotFailed := rfl

theorem repairQueueTokens_runRepair (d : ℕ → ℚ) (s : SimSt) :
    repairQueueTokens (runRobotCont d s .repair) = repairQueueTokens s := rfl

theorem repairDoneTokens_runRepair (d : ℕ → ℚ) (s : SimSt) :
    repairDoneTokens (runRobotCont d s .repair) = repairDoneTokens s + 1 := by
  unfold runRobotCont
  dsimp only
  rw [repairDoneTokens_schedEv]
  rfl

theorem failureTokens_runRepair (d : ℕ → ℚ) (s : SimSt) :
    failureTokens (runRobotCont d s .repair) = failureTokens s := by
  unfold runRobotCont
  dsimp only
  rw [failureTokens_schedEv]
  rfl

theorem tokens_runRepair (d : ℕ → ℚ) (s : SimSt) :
    tokens (runRobotCont d s .repair) = tokens s + 1 := by
  unfold runRobotCont tokens
  dsimp only
  rw [heaterTokens_schedEv, putQ23Tokens_schedEv, cellDoneTokens_schedEv,
    repairDoneTokens_schedEv]
  rw [(RvEq_sample d s).2.1, (RvEq_sample d s).2.2.1,
    (RvEq_sample d s).2.2.2.1, (RvEq_sample d s).2.2.2.2.1]
  simp [Ev.isCellDone, Ev.isRepairDone]
  omega

theorem robotRelease_spec (d : ℕ → ℚ) (s : SimSt) (h : Core s 1) :
    Core (robotRelease d s) 0 ∧ Pres (robotRelease d s) s := by
  obtain ⟨hcap, h0, h1, hqf, hbal⟩ := h
  have htok : tokens s = 0 := by omega
  have hin : s.robot.inUse = 1 := by omega
  unfold robotRelease
  rcases Resource.release_spec s.robot with ⟨hq, heq⟩ | ⟨k, rest, hq, heq⟩ <;>
    rw [heq] <;> dsimp only
  · refine ⟨⟨hcap, ?_, ?_, ?_, ?_⟩, rfl, rfl, rfl, rfl⟩
    · show (0 : ℤ) ≤ max 0 (s.robot.inUse - 1)
      omega
    · show max 0 (s.robot.inUse - 1) ≤ 1
      omega
    · intro hne
      exact absurd hq hne
    · show max 0 (s.robot.inUse - 1) = (tokens s : ℤ) + ((0 : ℕ) : ℤ)
      rw [htok]
      omega
  · cases k with
    | work p =>
      dsimp only [runRobotCont]
      have hcore : Core { s with
          robot := (⟨s.robot.capacity, max 0 (s.robot.inUse - 1) + 1, rest⟩ :
            Resource RobotCont) } 1 := by
        refine ⟨hcap, ?_, ?_, ?_, ?_⟩
        · show (0 : ℤ) ≤ max 0 (s.robot.inUse - 1) + 1
          omega
        · show max 0 (s.robot.inUse - 1) + 1 ≤ 1
          omega
        · intro _
          show max 0 (s.robot.inUse - 1) + 1 = 1
          omega
        · show max 0 (s.robot.inUse - 1) + 1 = (tokens s : ℤ) + ((1 : ℕ) : ℤ)
          rw [htok]
          omega
      refine ⟨heaterAcquire_core d _ p 0 hcore, ?_⟩
      refine Pres_trans (heaterAcquire_spec d _ p).2.2 ⟨rfl, ?_, rfl, rfl⟩
      show rest.countP (fun k => k.isRepair) + repairDoneTokens s =
        repairQueueTokens s + repairDoneTokens s
      unfold repairQueueTokens
      rw [hq, List.countP_cons]
      simp [RobotCont.isRepair]
    | repair =>
      have hrq : repairQueueTokens s = rest.countP (fun k => k.isRepair) + 1 := by
        unfold repairQueueTokens
        rw [hq, List.countP_cons]
        simp [RobotCont.isRepair]
      refine ⟨⟨?_, ?_, ?_, ?_, ?_⟩, ⟨?_, ?_, ?_, ?_⟩⟩
      · rw [robot_runRepair]
        exact hcap
      · rw [robot_runRepair]
        show (0 : ℤ) ≤ max 0 (s.robot.inUse - 1) + 1
        omega
      · rw [robot_runRepair]
        show max 0 (s.robot.inUse - 1) + 1 ≤ 1
        omega
      · rw [robot_runRepair]
        intro _
        show max 0 (s.robot.inUse - 1) + 1 = 1
        omega
      · rw [robot_runRepair, tokens_runRepair]
        show max 0 (s.robot.inUse - 1) + 1 =
          ((tokens { s with
            robot := (⟨s.robot.capacity, max 0 (s.robot.inUse - 1) + 1, rest⟩ :
              Resource RobotCont) } + 1 : ℕ) : ℤ) + ((0 : ℕ) : ℤ)
        have htok2 : tokens { s with
            robot := (⟨s.robot.capacity, max 0 (s.robot.inUse - 1) + 1, rest⟩ :
              Resource RobotCont) } = tokens s := rfl
        rw [htok2, htok]
        omega
      · rw [robot_runRepair]
      · rw [repairQueueTokens_runRepair, repairDoneTokens_runRepair]
        show rest.countP (fun k => k.isRepair) + (repairDoneTokens s + 1) =
          repairQueueTokens s + repairDoneTokens s
        rw [hrq]
        omega
      · rw [failureTokens_runRepair]
        rfl
      · rw [isFailed_runRepair]

theorem Core_transport {s1 s2 : SimSt} {x : ℕ} (hr : s1.robot = s2.robot)
    (ht : tokens s1 = tokens s2) (h : Core s2 x) : Core s1 x := by
  obtain ⟨c1, c2, c3, c4, c5⟩ := h
  exact ⟨by rw [hr]; exact c1, by rw [hr]; exact c2, by rw [hr]; exact c3,
    by rw [hr]; exact c4, by rw [hr, ht]; exact c5⟩

theorem robotAcquireRepair_spec (d : ℕ → ℚ) (s : SimSt)
    (hcap : s.robot.capacity = 1) (h0 : 0 ≤ s.robot.inUse)
    (h1 : s.robot.inUse ≤ 1) (hqf : s.robot.queue ≠ [] → s.robot.inUse = 1)
    (hbal : s.robot.inUse = (tokens s : ℤ)) :
    Core (robotAcquire d s .repair) 0 ∧
    repairQueueTokens (robotAcquire d s .repair) +
      repairDoneTokens (robotAcquire d s .repair) =
      repairQueueTokens s + repairDoneTokens s + 1 ∧
    failureTokens (robotAcquire d s .repair) = failureTokens s ∧
    (robotAcquire d s .repair).isRobotFailed = s.isRobotFailed := by
  unfold robotAcquire
  rcases Resource.acquire_spec s.robot .repair with ⟨hlt, heq⟩ |
    ⟨hlt, heq⟩ <;> rw [heq] <;> dsimp only
  · refine ⟨⟨?_, ?_, ?_, ?_, ?_⟩, ?_, ?_, ?_⟩
    · rw [robot_runRepair]
      exact hcap
    · rw [robot_runRepair]
      show (0 : ℤ) ≤ s.robot.inUse + 1
      omega
    · rw [robot_runRepair]
      show s.robot.inUse + 1 ≤ 1
      omega
    · rw [robot_runRepair]
      intro _
      show s.robot.inUse + 1 = 1
      omega
    · rw [robot_runRepair, tokens_runRepair]
      show s.robot.inUse + 1 =
        ((tokens { s with
          robot := (⟨s.robot.capacity, s.robot.inUse + 1, s.robot.queue⟩ :
            Resource RobotCont) } + 1 : ℕ) : ℤ) + ((0 : ℕ) : ℤ)
      have htok2 : tokens { s with
          robot := (⟨s.robot.capacity, s.robot.inUse + 1, s.robot.queue⟩ :
            Resource RobotCont) } = tokens s := rfl
      rw [htok2]
      omega
    · rw [repairQueueTokens_runRepair, repairDoneTokens_runRepair]
      show repairQueueTokens s + (repairDoneTokens s + 1) =
        repairQueueTokens s + repairDoneTokens s + 1
      omega
    · rw [failureTokens_runRepair]
      rfl
    · rw [isFailed_runRepair]
  · refine ⟨⟨?_, ?_, ?_, ?_, ?_⟩, ?_, rfl, rfl⟩
    · exact hcap
    · exact h0
    · exact h1
    · intro _
      show s.robot.inUse = 1
      omega
    · show s.robot.inUse = (tokens s : ℤ) + ((0 : ℕ) : ℤ)
      omega
    · show (s.robot.queue ++ [RobotCont.repair]).countP
        (fun k => k.isRepair) + repairDoneTokens s =
        repairQueueTokens s + repairDoneTokens s + 1
      rw [List.countP_append]
      show repairQueueTokens s + 1 + repairDoneTokens s = _
      omega

theorem cellLoop_spec (d : ℕ → ℚ) (s : SimSt) (x : ℕ) (h : Core s x) :
    Core (cellLoop d s) x ∧ Pres (cellLoop d s) s := by
  unfold cellLoop
  rcases Store.get_spec s.buf12 () with ⟨hi, heq⟩ | ⟨it, its, hi, hp, heq⟩ |
    ⟨it, its, item2, pcb, ps, hi, hp, hg, heq⟩ |
    ⟨it, its, item2, pcb, ps, g, gs, hi, hp, hg, heq⟩ <;>
      rw [heq] <;> dsimp only
  · exact ⟨Core_of_RvEq (RvEq_setBuf12 s _) h, Pres_of_RvEq (RvEq_setBuf12 s _)⟩
  · have h1 := Core_of_RvEq (RvEq_setBuf12 s
      (⟨s.buf12.capacity, its, s.buf12.getQ, s.buf12.putQ⟩ :
        Store ℕ Unit Unit)) h
    obtain ⟨hc2, hp2⟩ := processCell_spec d _ it x h1
    exact ⟨hc2, Pres_trans hp2 (Pres_of_RvEq (RvEq_setBuf12 s _))⟩
  · have h1 := Core_of_RvEq (RvEq_setBuf12 s
      (⟨s.buf12.capacity, its ++ [item2], s.buf12.getQ, ps⟩ :
        Store ℕ Unit Unit)) h
    have h2 := Core_of_RvEq (cutterRelease_rv d _) h1
    obtain ⟨hc3, hp3⟩ := processCell_spec d _ it x h2
    exact ⟨hc3, Pres_trans hp3 (Pres_trans
      (Pres_of_RvEq (cutterRelease_rv d _))
      (Pres_of_RvEq (RvEq_setBuf12 s _)))⟩
  · have h1 := Core_of_RvEq (RvEq_setBuf12 s
      (⟨s.buf12.capacity, its, gs, ps⟩ : Store ℕ Unit Unit)) h
    obtain ⟨hcA, hpA⟩ := processCell_spec d _ item2 x h1
    have h2 := Core_of_RvEq (cutterRelease_rv d _) hcA
    obtain ⟨hcB, hpB⟩ := processCell_spec d _ it x h2
    exact ⟨hcB, Pres_trans hpB (Pres_trans
      (Pres_of_RvEq (cutterRelease_rv d _))
      (Pres_trans hpA (Pres_of_RvEq (RvEq_setBuf12 s _))))⟩

theorem buf12Put_spec (d : ℕ → ℚ) (s : SimSt) (id : ℕ) (x : ℕ)
    (h : Core s x) :
    Core (buf12Put d s id) x ∧ Pres (buf12Put d s id) s := by
  unfold buf12Put
  rcases Store.put_spec s.buf12 id () with ⟨g, gs, hg, heq⟩ |
    ⟨hg, hlt, heq⟩ | ⟨hg, hlt, heq⟩ <;> rw [heq] <;> dsimp only
  · have h1 := Core_of_RvEq (RvEq_setBuf12 s
      (⟨s.buf12.capacity, s.buf12.items, gs, s.buf12.putQ⟩ :
        Store ℕ Unit Unit)) h
    obtain ⟨hcA, hpA⟩ := processCell_spec d _ id x h1
    have h2 := Core_of_RvEq (cutterRelease_rv d _) hcA
    exact ⟨h2, Pres_trans (Pres_of_RvEq (cutterRelease_rv d _))
      (Pres_trans hpA (Pres_of_RvEq (RvEq_setBuf12 s _)))⟩
  · have h1 := Core_of_RvEq (RvEq_setBuf12 s
      (⟨s.buf12.capacity, s.buf12.items ++ [id], s.buf12.getQ,
        s.buf12.putQ⟩ : Store ℕ Unit Unit)) h
    have h2 := Core_of_RvEq (cutterRelease_rv d _) h1
    exact ⟨h2, Pres_trans (Pres_of_RvEq (cutterRelease_rv d _))
      (Pres_of_RvEq (RvEq_setBuf12 s _))⟩
  · exact ⟨Core_of_RvEq (RvEq_setBuf12 s _) h,
      Pres_of_RvEq (RvEq_setBuf12 s _)⟩

theorem cellPutDone_spec (d : ℕ → ℚ) (s : SimSt) (h : Core s 1) :
    Core (cellPutDone d s) 0 ∧ Pres (cellPutDone d s) s := by
  unfold cellPutDone
  obtain ⟨hr1, ht1, hp1⟩ := heaterRelease_spec d s
  have h2 := Core_transport hr1 ht1 h
  obtain ⟨hc3, hp3⟩ := robotRelease_spec d _ h2
  obtain ⟨hc4, hp4⟩ := cellLoop_spec d _ 0 hc3
  exact ⟨hc4, Pres_trans hp4 (Pres_trans hp3 hp1)⟩

theorem buf23Put_spec (d : ℕ → ℚ) (s : SimSt) (part : ℕ) (h : Core s 1) :
    Core (buf23Put d s part) 0 ∧ Pres (buf23Put d s part) s := by
  obtain ⟨hcap, h0, h1, hqf, hbal⟩ := h
  unfold buf23Put
  rcases Store.put_spec s.buf23 part () with ⟨g, gs, hg, heq⟩ |
    ⟨hg, hlt, heq⟩ | ⟨hg, hlt, heq⟩ <;> rw [heq] <;> dsimp only
  · have hcore : Core { s with
        buf23 := (⟨s.buf23.capacity, s.buf23.items, gs, s.buf23.putQ⟩ :
          Store ℕ Unit Unit) } 1 :=
      Core_transport rfl rfl ⟨hcap, h0, h1, hqf, hbal⟩
    have h2 := Core_of_RvEq (processPackaging_rv d _ part) hcore
    obtain ⟨hc3, hp3⟩ := cellPutDone_spec d _ h2
    refine ⟨hc3, Pres_trans hp3 (Pres_trans
      (Pres_of_RvEq (processPackaging_rv d _ part)) ⟨rfl, rfl, rfl, rfl⟩)⟩
  · have hcore : Core { s with
        buf23 := (⟨s.buf23.capacity, s.buf23.items ++ [part], s.buf23.getQ,
          s.buf23.putQ⟩ : Store ℕ Unit Unit) } 1 :=
      Core_transport rfl rfl ⟨hcap, h0, h1, hqf, hbal⟩
    obtain ⟨hc3, hp3⟩ := cellPutDone_spec d _ hcore
    exact ⟨hc3, Pres_trans hp3 ⟨rfl, rfl, rfl, rfl⟩⟩
  · refine ⟨⟨hcap, h0, h1, hqf, ?_⟩, rfl, rfl, rfl, rfl⟩
    show s.robot.inUse =
      ((heaterTokens s + cellDoneTokens s +
        (s.buf23.putQ ++ [(part, ())]).length + repairDoneTokens s : ℕ) : ℤ) +
        ((0 : ℕ) : ℤ)
    rw [List.length_append, List.length_singleton]
    unfold tokens putQ23Tokens at hbal
    push_cast at hbal ⊢
    omega

theorem packLoop_spec (d : ℕ → ℚ) (s : SimSt) (h : Core s 0) :
    Core (packLoop d s) 0 ∧ Pres (packLoop d s) s := by
  obtain ⟨hcap, h0, h1, hqf, hbal⟩ := h
  unfold packLoop
  rcases Store.get_spec s.buf23 () with ⟨hi, heq⟩ | ⟨it, its, hi, hp, heq⟩ |
    ⟨it, its, item2, pcb, ps, hi, hp, hg, heq⟩ |
    ⟨it, its, item2, pcb, ps, g, gs, hi, hp, hg, heq⟩ <;>
      rw [heq] <;> dsimp only
  · exact ⟨Core_transport rfl rfl ⟨hcap, h0, h1, hqf, hbal⟩,
      ⟨rfl, rfl, rfl, rfl⟩⟩
  · have hcore : Core { s with
        buf23 := (⟨s.buf23.capacity, its, s.buf23.getQ, s.buf23.putQ⟩ :
          Store ℕ Unit Unit) } 0 :=
      Core_transport rfl rfl ⟨hcap, h0, h1, hqf, hbal⟩
    have h2 := Core_of_RvEq (processPackaging_rv d _ it) hcore
    exact ⟨h2, Pres_trans (Pres_of_RvEq (processPackaging_rv d _ it))
      ⟨rfl, rfl, rfl, rfl⟩⟩
  · have hlen : s.buf23.putQ.length = ps.length + 1 := by
      rw [hp, List.length_cons]
    have hcore : Core { s with
        buf23 := (⟨s.buf23.capacity, its ++ [item2], s.buf23.getQ, ps⟩ :
          Store ℕ Unit Unit) } 1 := by
      refine ⟨hcap, h0, h1, hqf, ?_⟩
      show s.robot.inUse =
        ((heaterTokens s + cellDoneTokens s + ps.length +
          repairDoneTokens s : ℕ) : ℤ) + ((1 : ℕ) : ℤ)
      unfold tokens putQ23Tokens at hbal
      push_cast at hbal ⊢
      omega
    obtain ⟨hc3, hp3⟩ := cellPutDone_spec d _ hcore
    have h4 := Core_of_RvEq (processPackaging_rv d _ it) hc3
    exact ⟨h4, Pres_trans (Pres_of_RvEq (processPackaging_rv d _ it))
      (Pres_trans hp3 ⟨rfl, rfl, rfl, rfl⟩)⟩
  · have hlen : s.buf23.putQ.length = ps.length + 1 := by
      rw [hp, List.length_cons]
    have hcore : Core { s with
        buf23 := (⟨s.buf23.capacity, its, gs, ps⟩ :
          Store ℕ Unit Unit) } 1 := by
      refine ⟨hcap, h0, h1, hqf, ?_⟩
      show s.robot.inUse =
        ((heaterTokens s + cellDoneTokens s + ps.length +
          repairDoneTokens s : ℕ) : ℤ) + ((1 : ℕ) : ℤ)
      unfold tokens putQ23Tokens at hbal
      push_cast at hbal ⊢
      omega
    obtain ⟨hcA, hpA⟩ := cellPutDone_spec d _ (Core_of_RvEq
      (processPackaging_rv d _ item2) hcore)
    have hB := Core_of_RvEq (processPackaging_rv d _ it) hcA
    exact ⟨hB, Pres_trans (Pres_of_RvEq (processPackaging_rv d _ it))
      (Pres_trans hpA (Pres_trans
        (Pres_of_RvEq (processPackaging_rv d _ item2))
        ⟨rfl, rfl, rfl, rfl⟩))⟩

theorem robot_scheduleNextFailure (d : ℕ → ℚ) (s : SimSt) :
    (scheduleNextFailure d s).robot = s.robot := rfl

theorem isFailed_scheduleNextFailure (d : ℕ → ℚ) (s : SimSt) :
    (scheduleNextFailure d s).isRobotFailed = s.isRobotFailed := rfl

theorem repairQueueTokens_scheduleNextFailure (d : ℕ → ℚ) (s : SimSt) :
    repairQueueTokens (scheduleNextFailure d s) = repairQueueTokens s := rfl

theorem repairDoneTokens_scheduleNextFailure (d : ℕ → ℚ) (s : SimSt) :
    repairDoneTokens (scheduleNextFailure d s) = repairDoneTokens s := by
  unfold scheduleNextFailure
  dsimp only
  rw [repairDoneTokens_schedEv]
  rfl

theorem failureTokens_scheduleNextFailure (d : ℕ → ℚ) (s : SimSt) :
    failureTokens (scheduleNextFailure d s) = failureTokens s + 1 := by
  unfold scheduleNextFailure
  dsimp only
  rw [failureTokens_schedEv]
  rfl

theorem tokens_scheduleNextFailure (d : ℕ → ℚ) (s : SimSt) :
    tokens (scheduleNextFailure d s) = tokens s := by
  unfold scheduleNextFailure tokens
  dsimp only
  rw [heaterTokens_schedEv, putQ23Tokens_schedEv, cellDoneTokens_schedEv,
    repairDoneTokens_schedEv]
  simp only [Ev.isCellDone, Ev.isRepairDone]
  norm_num
  rfl

/-- Preservation of the robot accounting invariant by one driven step. -/
theorem RobotInv_simStep (d : ℕ → ℚ) (s : SimSt) (h : RobotInv s) :
    RobotInv (simStep d s) := by
  obtain ⟨⟨hcap, h0, h1, hqf, hbal⟩, hra, hft⟩ := h
  unfold simStep
  cases hq : s.env.q with
  | nil => exact ⟨⟨hcap, h0, h1, hqf, hbal⟩, hra, hft⟩
  | cons e rest =>
    dsimp only
    have hcd : cellDoneTokens s =
        rest.countP (fun ev => ev.action.isCellDone) +
          (if e.action.isCellDone then 1 else 0) := by
      unfold cellDoneTokens
      rw [hq, List.countP_cons]
    have hrd : repairDoneTokens s =
        rest.countP (fun ev => ev.action.isRepairDone) +
          (if e.action.isRepairDone then 1 else 0) := by
      unfold repairDoneTokens
      rw [hq, List.countP_cons]
    have hfl : failureTokens s =
        rest.countP (fun ev => ev.action.isFailure) +
          (if e.action.isFailure then 1 else 0) := by
      unfold failureTokens
      rw [hq, List.countP_cons]
    cases he : e.action with
    | arrival =>
      rw [he] at hcd hrd hfl
      rw [show Ev.arrival.isCellDone = false from rfl] at hcd
      rw [show Ev.arrival.isRepairDone = false from rfl] at hrd
      rw [show Ev.arrival.isFailure = false from rfl] at hfl
      norm_num at hcd hrd hfl
      have hcore : Core { s with env := ⟨e.t, rest⟩ } 0 := by
        refine ⟨hcap, h0, h1, hqf, ?_⟩
        show s.robot.inUse =
          ((heaterTokens s + rest.countP (fun ev => ev.action.isCellDone) +
            putQ23Tokens s +
            rest.countP (fun ev => ev.action.isRepairDone) : ℕ) : ℤ) +
            ((0 : ℕ) : ℤ)
        unfold tokens at hbal
        push_cast at hbal ⊢
        omega
      have hacct : RepAcct { s with env := ⟨e.t, rest⟩ } := by
        refine ⟨?_, ?_⟩
        · show repairQueueTokens s +
            rest.countP (fun ev => ev.action.isRepairDone) =
            (if s.isRobotFailed = true then 1 else 0)
          rw [← hrd]
          exact hra
        · show rest.countP (fun ev => ev.action.isFailure) =
            (if s.isRobotFailed = true then 0 else 1)
          rw [← hfl]
          exact hft
      dsimp only [execEv]
      have hmid : RvEq ({ { s with env := ⟨e.t, rest⟩ } with
          nextItemId := s.nextItemId + 1,
          metrics := s.metrics.startItem s.nextItemId e.t })
          ({ s with env := ⟨e.t, rest⟩ }) :=
        RvEq_setMetricsNextItemId { s with env := ⟨e.t, rest⟩ }
          (s.nextItemId + 1) (s.metrics.startItem s.nextItemId e.t)
      constructor
      · exact Core_of_RvEq (RvEq_trans (scheduleNextArrival_rv d _)
          (RvEq_trans (cutterAcquire_rv d _ _) hmid)) hcore
      · exact RepAcct_of_Pres (Pres_of_RvEq
          (RvEq_trans (scheduleNextArrival_rv d _)
            (RvEq_trans (cutterAcquire_rv d _ _) hmid))) hacct
    | cutDone id =>
      rw [he] at hcd hrd hfl
      rw [show (Ev.cutDone id).isCellDone = false from rfl] at hcd
      rw [show (Ev.cutDone id).isRepairDone = false from rfl] at hrd
      rw [show (Ev.cutDone id).isFailure = false from rfl] at hfl
      norm_num at hcd hrd hfl
      have hcore : Core { s with env := ⟨e.t, rest⟩ } 0 := by
        refine ⟨hcap, h0, h1, hqf, ?_⟩
        show s.robot.inUse =
          ((heaterTokens s + rest.countP (fun ev => ev.action.isCellDone) +
            putQ23Tokens s +
            rest.countP (fun ev => ev.action.isRepairDone) : ℕ) : ℤ) +
            ((0 : ℕ) : ℤ)
        unfold tokens at hbal
        push_cast at hbal ⊢
        omega
      have hacct : RepAcct { s with env := ⟨e.t, rest⟩ } := by
        refine ⟨?_, ?_⟩
        · show repairQueueTokens s +
            rest.countP (fun ev => ev.action.isRepairDone) =
            (if s.isRobotFailed = true then 1 else 0)
          rw [← hrd]
          exact hra
        · show rest.countP (fun ev => ev.action.isFailure) =
            (if s.isRobotFailed = true then 0 else 1)
          rw [← hfl]
          exact hft
      dsimp only [execEv]
      obtain ⟨hc, hp⟩ := buf12Put_spec d _ id 0 hcore
      exact ⟨hc, RepAcct_of_Pres hp hacct⟩
    | cellDone part =>
      rw [he] at hcd hrd hfl
      rw [show (Ev.cellDone part).isCellDone = true from rfl] at hcd
      rw [show (Ev.cellDone part).isRepairDone = false from rfl] at hrd
      rw [show (Ev.cellDone part).isFailure = false from rfl] at hfl
      norm_num at hcd hrd hfl
      have hcore : Core { s with env := ⟨e.t, rest⟩ } 1 := by
        refine ⟨hcap, h0, h1, hqf, ?_⟩
        show s.robot.inUse =
          ((heaterTokens s + rest.countP (fun ev => ev.action.isCellDone) +
            putQ23Tokens s +
            rest.countP (fun ev => ev.action.isRepairDone) : ℕ) : ℤ) +
            ((1 : ℕ) : ℤ)
        unfold tokens at hbal
        push_cast at hbal ⊢
        omega
      have hacct : RepAcct { s with env := ⟨e.t, rest⟩ } := by
        refine ⟨?_, ?_⟩
        · show repairQueueTokens s +
            rest.countP (fun ev => ev.action.isRepairDone) =
            (if s.isRobotFailed = true then 1 else 0)
          rw [← hrd]
          exact hra
        · show rest.countP (fun ev => ev.action.isFailure) =
            (if s.isRobotFailed = true then 0 else 1)
          rw [← hfl]
          exact hft
      dsimp only [execEv]
      obtain ⟨hc, hp⟩ := buf23Put_spec d _ part hcore
      exact ⟨hc, RepAcct_of_Pres hp hacct⟩
    | packDone part2 =>
      rw [he] at hcd hrd hfl
      rw [show (Ev.packDone part2).isCellDone = false from rfl] at hcd
      rw [show (Ev.packDone part2).isRepairDone = false from rfl] at hrd
      rw [show (Ev.packDone part2).isFailure = false from rfl] at hfl
      norm_num at hcd hrd hfl
      have hcore : Core { s with env := ⟨e.t, rest⟩ } 0 := by
        refine ⟨hcap, h0, h1, hqf, ?_⟩
        show s.robot.inUse =
          ((heaterTokens s + rest.countP (fun ev => ev.action.isCellDone) +
            putQ23Tokens s +
            rest.countP (fun ev => ev.action.isRepairDone) : ℕ) : ℤ) +
            ((0 : ℕ) : ℤ)
        unfold tokens at hbal
        push_cast at hbal ⊢
        omega
      have hacct : RepAcct { s with env := ⟨e.t, rest⟩ } := by
        refine ⟨?_, ?_⟩
        · show repairQueueTokens s +
            rest.countP (fun ev => ev.action.isRepairDone) =
            (if s.isRobotFailed = true then 1 else 0)
          rw [← hrd]
          exact hra
        · show rest.countP (fun ev => ev.action.isFailure) =
            (if s.isRobotFailed = true then 0 else 1)
          rw [← hfl]
          exact hft
      dsimp only [execEv]
      have hmidP : RvEq ({ packerRelease d { s with env := ⟨e.t, rest⟩ } with
          metrics := (packerRelease d
            { s with env := ⟨e.t, rest⟩ }).metrics.finishItem part2
            (packerRelease d { s with env := ⟨e.t, rest⟩ }).env.now })
          (packerRelease d { s with env := ⟨e.t, rest⟩ }) :=
        RvEq_setMetrics _ _
      have hcoreB := Core_of_RvEq hmidP
        (Core_of_RvEq (packerRelease_rv d { s with env := ⟨e.t, rest⟩ }) hcore)
      obtain ⟨hc, hp⟩ := packLoop_spec d _ hcoreB
      refine ⟨hc, RepAcct_of_Pres (Pres_trans hp (Pres_trans
        (Pres_of_RvEq hmidP)
        (Pres_of_RvEq (packerRelease_rv d _)))) hacct⟩
    | failure =>
      rw [he] at hcd hrd hfl
      rw [show Ev.failure.isCellDone = false from rfl] at hcd
      rw [show Ev.failure.isRepairDone = false from rfl] at hrd
      rw [show Ev.failure.isFailure = true from rfl] at hfl
      norm_num at hcd hrd hfl
      have hnotf : s.isRobotFailed = false := by
        by_contra hcon
        rw [Bool.not_eq_false] at hcon
        rw [hcon] at hft
        simp at hft
        omega
      rw [hnotf] at hra hft
      simp at hra hft
      dsimp only [execEv]
      obtain ⟨hcA, hsumA, hflA, hIsFA⟩ := robotAcquireRepair_spec d
        { { s with env := ⟨e.t, rest⟩ } with
          isRobotFailed := true,
          failureCount := s.failureCount + 1,
          lastFailureTime := some (⟨e.t, rest⟩ : Env Ev).now }
        hcap h0 h1 (fun hne => hqf hne)
        (by
          show s.robot.inUse =
            ((heaterTokens s + rest.countP (fun ev => ev.action.isCellDone) +
              putQ23Tokens s +
              rest.countP (fun ev => ev.action.isRepairDone) : ℕ) : ℤ)
          unfold tokens at hbal
          push_cast at hbal ⊢
          omega)
      refine ⟨hcA, ?_, ?_⟩
      · rw [hsumA, hIsFA]
        show repairQueueTokens s +
          rest.countP (fun ev => ev.action.isRepairDone) + 1 =
          (if (true : Bool) = true then 1 else 0)
        rw [if_pos rfl]
        omega
      · rw [hflA, hIsFA]
        show rest.countP (fun ev => ev.action.isFailure) =
          (if (true : Bool) = true then 0 else 1)
        rw [if_pos rfl]
        omega
    | repairDone =>
      rw [he] at hcd hrd hfl
      rw [show Ev.repairDone.isCellDone = false from rfl] at hcd
      rw [show Ev.repairDone.isRepairDone = true from rfl] at hrd
      rw [show Ev.repairDone.isFailure = false from rfl] at hfl
      norm_num at hcd hrd hfl
      have hisf : s.isRobotFailed = true := by
        by_contra hcon
        rw [Bool.not_eq_true] at hcon
        rw [hcon] at hra
        simp at hra
        omega
      rw [hisf] at hra hft
      simp at hra hft
      have hrdz : rest.countP (fun ev => ev.action.isRepairDone) = 0 := by
        omega
      have hrqz : repairQueueTokens s = 0 := by
        omega
      have hflz : rest.countP (fun ev => ev.action.isFailure) = 0 := by
        omega
      dsimp only [execEv]
      have hcore1 : Core { { s with env := ⟨e.t, rest⟩ } with
          isRobotFailed := false } 1 := by
        refine ⟨hcap, h0, h1, hqf, ?_⟩
        show s.robot.inUse =
          ((heaterTokens s + rest.countP (fun ev => ev.action.isCellDone) +
            putQ23Tokens s +
            rest.countP (fun ev => ev.action.isRepairDone) : ℕ) : ℤ) +
            ((1 : ℕ) : ℤ)
        unfold tokens at hbal
        push_cast at hbal ⊢
        omega
      obtain ⟨hcB, hpB⟩ := robotRelease_spec d _ hcore1
      obtain ⟨pb1, pb2, pb3, pb4⟩ := hpB
      refine ⟨?_, ?_, ?_⟩
      · exact Core_transport (robot_scheduleNextFailure d _)
          (tokens_scheduleNextFailure d _) hcB
      · rw [repairQueueTokens_scheduleNextFailure,
          repairDoneTokens_scheduleNextFailure, isFailed_scheduleNextFailure,
          pb4, pb2]
        show repairQueueTokens s +
          rest.countP (fun ev => ev.action.isRepairDone) =
          (if (false : Bool) = true then 1 else 0)
        rw [if_neg (by norm_num)]
        omega
      · rw [failureTokens_scheduleNextFailure, isFailed_scheduleNextFailure,
          pb4, pb3]
        show rest.countP (fun ev => ev.action.isFailure) + 1 =
          (if (false : Bool) = true then 0 else 1)
        rw [if_neg (by norm_num)]
        omega

/-- The invariant holds right after start(): one pending arrival, one
pending failure, both consumer loops blocked on their empty buffers, the
robot idle. -/
theorem RobotInv_init (d : ℕ → ℚ) (p : SimParams)
    (hcap : p.robotCapacity = 1) : RobotInv (initSim d p) := by
  show RobotInv (scheduleNextFailure d
    (startSource d { mkLineSim p with isRunning := true }))
  unfold startSource scheduleNextFailure scheduleNextArrival cellLoop packLoop
    sample schedEv mkLineSim mkStore mkResource mkEnv Store.get Env.schedule
  dsimp only
  unfold RobotInv Core RepAcct tokens heaterTokens cellDoneTokens
    putQ23Tokens repairDoneTokens repairQueueTokens failureTokens
  dsimp only
  norm_num [countP_pqPush, List.countP_nil, Ev.isCellDone, Ev.isRepairDone,
    Ev.isFailure, hcap]

theorem RobotInv_runSim (d : ℕ → ℚ) (p : SimParams)
    (hcap : p.robotCapacity = 1) (n : ℕ) : RobotInv (runSim d p n) := by
  unfold runSim
  induction n with
  | zero => exact RobotInv_init d p hcap
  | succ n ih =>
    rw [Function.iterate_succ_apply']
    exact RobotInv_simStep d _ ih

/-- C9. Failure back-pressure: with robotCapacity = 1 (failures are armed
by start() in every run), in every state reachable by driven steps in
which isRobotFailed is true, the robot's inUse equals its capacity:
either the repair continuation holds the unit (a repairDone event is
pending) or the unit is held by work while the repair waits in the FIFO
queue — in both cases the accounting invariant forces inUse = capacity,
even when no work item is queued. -/
theorem failure_backpressure (d : ℕ → ℚ) (p : SimParams) (n : ℕ)
    (hcap : p.robotCapacity = 1)
    (hfail : (runSim d p n).isRobotFailed = true) :
    (runSim d p n).robot.inUse = (runSim d p n).robot.capacity := by
  obtain ⟨⟨hc1, h0, h1, hqf, hbal⟩, hra, hft⟩ := RobotInv_runSim d p hcap n
  rw [hfail] at hra
  simp at hra
  rw [hc1]
  by_cases hrd : 1 ≤ repairDoneTokens (runSim d p n)
  · unfold tokens at hbal
    omega
  · have hq1 : 1 ≤ repairQueueTokens (runSim d p n) := by omega
    have hne : (runSim d p n).robot.queue ≠ [] := by
      intro hnil
      unfold repairQueueTokens at hq1
      rw [hnil] at hq1
      simp at hq1
    rw [hqf hne]

/-- Witness for failure_backpressure: with the default configuration
(robotCapacity 1) and an all-zero sample stream, after two driven steps
the failure event has fired and the repair holds the robot. -/
theorem failure_backpressure_witness :
    defaultParams.robotCapacity = 1 ∧
    (runSim (fun _ => 0) defaultParams 2).isRobotFailed = true ∧
    (runSim (fun _ => 0) defaultParams 2).robot.inUse =
      (runSim (fun _ => 0) defaultParams 2).robot.capacity := by
  have hfail : (runSim (fun _ => 0) defaultParams 2).isRobotFailed = true := by
    norm_num [runSim, initSim, startSim, mkLineSim, startSource,
      startRobotFailures, scheduleNextArrival, scheduleNextFailure, sample,
      schedEv, Env.schedule, pqPush, cellLoop, packLoop, Store.get, mkStore,
      mkResource, mkMetrics, mkEnv, simStep, execEv, startItemFlow,
      cutterAcquire, Resource.acquire, runCutAcq, buf12Put, Store.put,
      robotAcquire, runRobotCont, Metrics.startItem, Metrics.bumpAccum,
      mapSet, processCell, defaultParams, Function.iterate_succ,
      Function.iterate_zero]
  exact ⟨rfl, hfail,
    failure_backpressure (fun _ => 0) defaultParams 2 rfl hfail⟩

theorem rngOut_range (s : ℕ) : 0 ≤ rngOut s ∧ rngOut s < 1 := by
  unfold rngOut
  constructor
  · positivity
  · rw [div_lt_one (by norm_num)]
    have h2 : s &&& 0x7fffffff < 2147483648 := by
      have h3 : s &&& 0x7fffffff ≤ 0x7fffffff := Nat.and_le_right
      omega
    exact_mod_cast h2

theorem expovariate_nonneg (u mean : ℝ) (hu : u < 1) (hm : 0 ≤ mean) :
    0 ≤ expovariate u mean := by
  unfold expovariate
  have hpos : (0 : ℝ) < max 1e-12 u :=
    lt_of_lt_of_le (by norm_num) (le_max_left _ _)
  have hle1 : max 1e-12 u ≤ 1 := max_le (by norm_num) (le_of_lt hu)
  have hlog : Real.log (max 1e-12 u) ≤ 0 :=
    Real.log_nonpos (le_of_lt hpos) hle1
  exact mul_nonneg (neg_nonneg.mpr hlog) hm

theorem triangular_mem (u low mode high : ℝ) (hu0 : 0 ≤ u) (hu1 : u < 1)
    (hlm : low ≤ mode) (hmh : mode ≤ high) :
    low ≤ triangular u low mode high ∧ triangular u low mode high ≤ high := by
  unfold triangular
  have hlh : low ≤ high := le_trans hlm hmh
  by_cases hc : u < (mode - low) / (high - low)
  · rw [if_pos hc]
    by_cases heq : high = low
    · exfalso
      rw [heq] at hc
      have : (mode - low) / (low - low) = 0 := by
        rw [sub_self, div_zero]
      rw [this] at hc
      linarith
    · have hpos : 0 < high - low :=
        lt_of_le_of_ne (by linarith) (fun hcon => heq (by linarith))
      have hmul : u * (high - low) < mode - low := by
        have := (lt_div_iff hpos).mp hc
        linarith
      have harg : u * (high - low) * (mode - low) ≤ (high - low) ^ 2 := by
        nlinarith
      constructor
      · have := Real.sqrt_nonneg (u * (high - low) * (mode - low))
        linarith
      · have hsq : Real.sqrt (u * (high - low) * (mode - low)) ≤ high - low := by
          calc Real.sqrt (u * (high - low) * (mode - low)) ≤
              Real.sqrt ((high - low) ^ 2) := Real.sqrt_le_sqrt harg
            _ = high - low := Real.sqrt_sq (by linarith)
        linarith
  · rw [if_neg hc]
    push_neg at hc
    constructor
    · by_cases heq : high = low
      · have : (1 - u) * (high - low) * (high - mode) = 0 := by
          rw [heq, sub_self]
          ring
        rw [this, Real.sqrt_zero]
        linarith
      · have hpos : 0 < high - low :=
          lt_of_le_of_ne (by linarith) (fun hcon => heq (by linarith))
        have hcval : (mode - low) / (high - low) * (high - low) =
            mode - low := div_mul_cancel₀ _ (ne_of_gt hpos)
        have hmul : (1 - u) * (high - low) ≤ high - mode := by
          have h5 : (mode - low) ≤ u * (high - low) := by
            have := mul_le_mul_of_nonneg_right hc (le_of_lt hpos)
            rw [hcval] at this
            exact this
          nlinarith
        have harg : (1 - u) * (high - low) * (high - mode) ≤
            (high - low) ^ 2 := by
          nlinarith
        have hsq : Real.sqrt ((1 - u) * (high - low) * (high - mode)) ≤
            high - low := by
          calc Real.sqrt ((1 - u) * (high - low) * (high - mode)) ≤
              Real.sqrt ((high - low) ^ 2) := Real.sqrt_le_sqrt harg
            _ = high - low := Real.sqrt_sq (by linarith)
        linarith
    · have := Real.sqrt_nonneg ((1 - u) * (high - low) * (high - mode))
      linarith

/-- C10. Every value returned by next() lies in [0, 1); consequently
expovariate(mean) is non-negative for every non-negative mean (the
uniform deviate is clamped to at least 1e-12 before the logarithm), and
triangular(low, mode, high) lies within [low, high] whenever
low ≤ mode ≤ high — so every delay the production line draws (an
expovariate or a triangular of a next() output, with non-negative
parameters) is non-negative. -/
theorem rng_distribution_ranges :
    (∀ seed n : ℕ, 0 ≤ rngVal seed n ∧ rngVal seed n < 1) ∧
    (∀ u mean : ℝ, u < 1 → 0 ≤ mean → 0 ≤ expovariate u mean) ∧
    (∀ u low mode high : ℝ, 0 ≤ u → u < 1 → low ≤ mode → mode ≤ high →
      low ≤ triangular u low mode high ∧
        triangular u low mode high ≤ high) ∧
    (∀ seed n : ℕ, ∀ mean : ℝ, 0 ≤ mean →
      0 ≤ expovariate ((rngVal seed n : ℚ) : ℝ) mean) ∧
    (∀ seed n : ℕ, ∀ low mode high : ℝ, 0 ≤ low → low ≤ mode →
      mode ≤ high →
      0 ≤ triangular ((rngVal seed n : ℚ) : ℝ) low mode high) := by
  have hval : ∀ seed n : ℕ, 0 ≤ rngVal seed n ∧ rngVal seed n < 1 :=
    fun seed n => rngOut_range (rngState seed (n + 1))
  refine ⟨hval, expovariate_nonneg, triangular_mem, ?_, ?_⟩
  · intro seed n mean hm
    refine expovariate_nonneg _ mean ?_ hm
    have := (hval seed n).2
    exact_mod_cast this
  · intro seed n low mode high hl hlm hmh
    have h0 : (0 : ℝ) ≤ ((rngVal seed n : ℚ) : ℝ) := by
      exact_mod_cast (hval seed n).1
    have h1 : ((rngVal seed n : ℚ) : ℝ) < 1 := by
      exact_mod_cast (hval seed n).2
    have := triangular_mem ((rngVal seed n : ℚ) : ℝ) low mode high h0 h1
      hlm hmh
    linarith [this.1]

/-- Witness for rng_distribution_ranges at the default seed and the
default failure parameters. -/
theorem rng_distribution_ranges_witness :
    (0 ≤ rngVal 42 0 ∧ rngVal 42 0 < 1) ∧
    0 ≤ expovariate ((rngVal 42 0 : ℚ) : ℝ) 90 ∧
    0 ≤ triangular ((rngVal 42 0 : ℚ) : ℝ) 1 2 3 :=
  ⟨rng_distribution_ranges.1 42 0,
    rng_distribution_ranges.2.2.2.1 42 0 90 (by norm_num),
    rng_distribution_ranges.2.2.2.2 42 0 1 2 3 (by norm_num) (by norm_num)
      (by norm_num)⟩

end FactorySim
